import Mathlib

/-!
Verification development for the file-based command bus of the
`MCPserve/commands/MCPServerCommand.py` add-in.

The development shallowly embeds the code of that module:

* the per-directory polling loop of `file_monitor_thread` (command-file
  discovery, the dedup check against `processed_command_<id>.json` /
  `response_<id>.json`, JSON decoding, the command dispatch chain, response
  writing and the tombstone rename),
* the correlation-id extraction `file.split("_")[1].split(".")[0]`,
* the workspace resolver `get_workspace_paths`,
* the lifecycle functions `stop_server` and `server_thread_func`
  (including Python's scoping rule for assignments without a `global`
  declaration), and
* a line/block model of Python's indentation-sensitive parsing, applied to
  the logical lines of the statement at source lines 604-788, which contains
  the mis-indented line 644.

File names are modelled as `List Char` so that the `str.split`-based id
extraction and prefix reasoning stay elementary.  JSON documents are
modelled at the level of their parse result (`JValue`); a stored file is
either a document, bytes that `json.load` rejects, or plain text.

The source module itself does not compile as written (line 644 is dedented
out of its block, see the parser model below); for the behavioural
definitions the module is read with line 644 at the indentation of its
enclosing branch, the only reading under which the surrounding code has a
meaning, and one that does not affect any of the modelled paths other than
adding a log write in the `message_box` branch.

External collaborators (the Fusion `adsk` API, `ui.messageBox`, the wall
clock) are parameters of the embedding (`HostEnv`); every function of the
source that wraps such a collaborator in its own `try/except` and always
returns a plain value is modelled as an opaque field of `HostEnv`.
Append-mode debug-log writes, which target the workspace log directory and
carry timestamped free text, are modelled as trace events without content.
-/

/-! ## File names and Python `str.split` -/

/-- A file name, as the list of its characters. -/
abbrev Name := List Char

/-- Coerce a string literal to a `Name`. -/
def nm (s : String) : Name := s.data

/-- Python `s.split(sep)` for a one-character separator: splits at every
occurrence of `sep`, keeping empty segments; `"".split(sep) == [""]`. -/
def pySplit (sep : Char) : Name → List Name
  | [] => [[]]
  | c :: cs =>
    if c = sep then [] :: pySplit sep cs
    else
      match pySplit sep cs with
      | [] => [[c]]
      | h :: t => (c :: h) :: t

/-- Correlation-id extraction of the poller, source line 592:
`command_id = file.split("_")[1].split(".")[0]`.
The defaults of `getD` are never used on names accepted by the
`startswith("command_")` filter, which guarantees both indices exist. -/
def commandId (file : Name) : Name :=
  ((pySplit '_' file).getD 1 []) |> (pySplit '.') |>.getD 0 []

/-- Tombstone name, source line 595: `f"processed_command_{command_id}.json"`. -/
def processedName (id : Name) : Name := nm "processed_command_" ++ id ++ nm ".json"

/-- Response name, source line 596: `f"response_{command_id}.json"`. -/
def responseName (id : Name) : Name := nm "response_" ++ id ++ nm ".json"

/-- The filter of source line 588:
`file.startswith("command_") and file.endswith(".json")`. -/
def isCommandFile (file : Name) : Bool :=
  (nm "command_").isPrefixOf file && (nm ".json").isSuffixOf file

/-! ## JSON documents and the file store -/

/-- A parsed JSON document (the image of `json.load` / `json.dump`). -/
inductive JValue where
  | null
  | bool (b : Bool)
  | num (n : Int)
  | str (s : String)
  | arr (xs : List JValue)
  | obj (kvs : List (String × JValue))

/-- Content of a file on disk, at the granularity the poller observes it:
a JSON document, bytes rejected by `json.load` (with the message of the
`JSONDecodeError`), or plain text (the signal file, logs). -/
inductive FileData where
  | jsonDoc (v : JValue)
  | invalid (msg : String)
  | text (s : String)

/-- One watched communication directory: an association of file names to
contents, in directory-listing order. -/
abbrev FS := List (Name × FileData)

/-- Python `os.path.exists` within the directory. -/
def fsExists (fs : FS) (name : Name) : Bool := fs.any (fun p => p.1 = name)

/-- Look up a file's content. -/
def fsGet (fs : FS) (name : Name) : Option FileData :=
  (fs.find? (fun p => p.1 = name)).map (·.2)

/-- Python `open(name, "w")` + dump: overwrite in place, or append a new entry. -/
def fsWrite (fs : FS) (name : Name) (d : FileData) : FS :=
  if fsExists fs name then
    fs.map (fun p => if p.1 = name then (name, d) else p)
  else fs ++ [(name, d)]

/-- Remove an entry (only ever used as the first half of a rename; the
source contains no `os.remove`). -/
def fsRemove (fs : FS) (name : Name) : FS := fs.filter (fun p => ¬ p.1 = name)

/-- Python `os.rename(old, new)`: atomically moves the content; a no-op here
if the source is absent (the code only renames files it just read). -/
def fsRename (fs : FS) (old new : Name) : FS :=
  match fsGet fs old with
  | none => fs
  | some d => fsWrite (fsRemove fs old) new d

/-- `os.listdir`: the names, in listing order. -/
def fsList (fs : FS) : List Name := fs.map (·.1)

/-! ## Events of one poll pass -/

/-- Observable actions of the poller, in program order.  `delete` (an
`os.remove`) is in the vocabulary so that its absence from every trace is a
statement, not an artifact: the source never deletes, it renames. -/
inductive Event where
  | handlerRun (id : Name) (command : JValue)
  | write (name : Name) (d : FileData)
  | rename (src dst : Name)
  | delete (name : Name)
  | debugLog (name : Name)
  | display (message : String)

/-- Replay of a single event against the directory. -/
def applyEvent (fs : FS) : Event → FS
  | .write name d => fsWrite fs name d
  | .rename src dst => fsRename fs src dst
  | .delete name => fsRemove fs name
  | _ => fs

/-- Replay of a trace. -/
def applyEvents (fs : FS) (evs : List Event) : FS := evs.foldl applyEvent fs

/-! ## Python values, exceptions and `dict.get` -/

/-- The exception classes that the poller's two `except` clauses
distinguish: `json.JSONDecodeError` (caught by the inner clause at source
line 784) and everything else, here represented by the `AttributeError`
that `command_data.get` / `params.get` raises on a non-dict (caught by the
outer clause at source line 789). -/
inductive PyExc where
  | jsonDecodeError (msg : String)
  | attributeError (msg : String)

/-- Python `str(e)` of an exception, as used in the error responses. -/
def PyExc.message : PyExc → String
  | .jsonDecodeError m => m
  | .attributeError m => m

/-- Python type name of a JSON-decoded value, for `AttributeError` texts. -/
def pyTypeName : JValue → String
  | .null => "NoneType"
  | .bool _ => "bool"
  | .num _ => "int"
  | .str _ => "str"
  | .arr _ => "list"
  | .obj _ => "dict"

mutual

/-- Python `repr` of a JSON-decoded value (string escaping elided). -/
def pyRepr : JValue → String
  | .null => "None"
  | .bool true => "True"
  | .bool false => "False"
  | .num n => toString n
  | .str s => "\x27" ++ s ++ "\x27"
  | .arr xs => "[" ++ pyReprList xs ++ "]"
  | .obj kvs => "\x7b" ++ pyReprObj kvs ++ "\x7d"

/-- Comma-separated `repr`s of a list's elements. -/
def pyReprList : List JValue → String
  | [] => ""
  | [x] => pyRepr x
  | x :: xs => pyRepr x ++ ", " ++ pyReprList xs

/-- Comma-separated `repr`s of a dict's items. -/
def pyReprObj : List (String × JValue) → String
  | [] => ""
  | [(k, v)] => "\x27" ++ k ++ "\x27: " ++ pyRepr v
  | (k, v) :: kvs => "\x27" ++ k ++ "\x27: " ++ pyRepr v ++ ", " ++ pyReprObj kvs

end

/-- Python `str(x)` as interpolated by an f-string: identity on strings,
`repr`-like on containers, `None`/`True`/`False` keywords. -/
def pyFormat : JValue → String
  | .str s => s
  | v => pyRepr v

/-- Python `x.get(key, default)`: succeeds on dicts (`json.load` keeps the
last duplicate key, hence the reverse lookup); on anything else raises the
`AttributeError` that the outer `except` clause of the poller catches. -/
def jGet (v : JValue) (key : String) (dflt : JValue) : Except PyExc JValue :=
  match v with
  | .obj kvs =>
    match kvs.reverse.find? (fun p => p.1 = key) with
    | some p => .ok p.2
    | none => .ok dflt
  | other =>
    .error (.attributeError
      ("\x27" ++ pyTypeName other ++ "\x27 object has no attribute \x27get\x27"))

/-- Python `json.load` on a stored file. -/
def pyJsonLoad : FileData → Except PyExc JValue
  | .jsonDoc v => .ok v
  | .invalid msg => .error (.jsonDecodeError msg)
  | .text s => .error (.jsonDecodeError ("Expecting value: " ++ s))

/-! ## The host boundary -/

/-- Results of the external collaborators the dispatch chain calls.  Each
field stands for a function of the source that wraps the Fusion `adsk` API
(or `ui.messageBox`) in its own `try/except` and always returns a plain
value, so none of them can raise into the poller:

* `create_message_box` — `create_message_box_command` (returns a success
  flag, catching its own errors);
* `create_new_sketch`, `create_parameter` — the tool functions of the same
  names (always return a `str`, catching their own errors);
* `read_active_document_info`, `read_design_structure`, `read_parameters`
  — the bodies of the three `read_resource` sub-branches, each of which
  wraps its host access in `try/except` and produces a result dict;
* `nowSec` — `int(time.time())`, used for default parameter names and for
  archived signal-file names. -/
structure HostEnv where
  nowSec : Nat
  create_message_box : String → Bool
  create_new_sketch : JValue → String
  create_parameter : JValue → JValue → JValue → JValue → String
  read_active_document_info : JValue
  read_design_structure : JValue
  read_parameters : JValue

/-! ## The dispatch chain (source lines 616-776) -/

/-- The command names the `if/elif` chain recognises. -/
def registeredCommands : List String :=
  ["list_resources", "list_tools", "list_prompts", "message_box",
   "create_new_sketch", "create_parameter", "read_resource", "get_prompt"]

/-- Python `x == "lit"` for a decoded value: true only for the equal string. -/
def jIsStr (v : JValue) (s : String) : Bool :=
  match v with
  | .str t => t = s
  | _ => false

/-- Result of `list_resources` (source lines 618-623). -/
def listResourcesResult : JValue :=
  .arr [.str "fusion://active-document-info", .str "fusion://design-structure",
        .str "fusion://parameters"]

/-- Result of `list_tools` (source lines 626-631). -/
def listToolsResult : JValue :=
  .arr [.obj [("name", .str "message_box"),
              ("description", .str "Display a message box in Fusion 360")],
        .obj [("name", .str "create_new_sketch"),
              ("description", .str "Create a new sketch on the specified plane")],
        .obj [("name", .str "create_parameter"),
              ("description", .str "Create a new parameter in the active design")]]

/-- Result of `list_prompts` (source lines 634-638). -/
def listPromptsResult : JValue :=
  .arr [.obj [("name", .str "create_sketch_prompt"),
              ("description",
               .str "Create a prompt for creating a sketch based on a description")],
        .obj [("name", .str "parameter_setup_prompt"),
              ("description",
               .str "Create a prompt for setting up parameters based on a description")]]

/-- The `get_prompt` payload for `create_sketch_prompt` (source lines 747-758). -/
def sketchPromptResult (description : JValue) : JValue :=
  .obj [("messages",
    .arr [.obj [("role", .str "system"),
                ("content", .str ("You are an expert in Fusion 360 CAD modeling. Your task is to help the user create sketches based on their descriptions.\n\nBe very specific about what planes to use and what sketch entities to create."))],
          .obj [("role", .str "user"),
                ("content", .str ("I want to create a sketch with these requirements: "
                  ++ pyFormat description
                  ++ "\n\nPlease provide step-by-step instructions for creating this sketch in Fusion 360."))]])]

/-- The `get_prompt` payload for `parameter_setup_prompt` (source lines 761-772). -/
def parameterPromptResult (description : JValue) : JValue :=
  .obj [("messages",
    .arr [.obj [("role", .str "system"),
                ("content", .str ("You are an expert in Fusion 360 parametric design. Your task is to help the user set up parameters for their design.\n\nSuggest appropriate parameters, their values, units, and purposes based on the user\x27s description."))],
          .obj [("role", .str "user"),
                ("content", .str ("I want to set up parameters for: "
                  ++ pyFormat description
                  ++ "\n\nWhat parameters should I create, and what values, units, and comments should they have?"))]])]

/-- The `read_resource` branch (source lines 669-739): dispatch on `uri`;
each known resource body is a host call that cannot raise, an unknown
`uri` becomes a result dict with an `error` item. -/
def readResourceBranch (env : HostEnv) (params : JValue) :
    Except PyExc (JValue × List Event) := do
  let uri ← jGet params "uri" (.str "")
  if jIsStr uri "fusion://active-document-info" then
    pure (env.read_active_document_info, [])
  else if jIsStr uri "fusion://design-structure" then
    pure (env.read_design_structure, [])
  else if jIsStr uri "fusion://parameters" then
    pure (env.read_parameters, [])
  else
    pure (.obj [("error", .str ("Unknown resource URI: " ++ pyFormat uri))], [])

/-- The `get_prompt` branch (source lines 740-774). -/
def getPromptBranch (params : JValue) : Except PyExc (JValue × List Event) := do
  let promptName ← jGet params "name" (.str "")
  let promptArgs ← jGet params "args" (.obj [])
  if jIsStr promptName "create_sketch_prompt" then
    let description ← jGet promptArgs "description" (.str "Default sketch")
    pure (sketchPromptResult description, [])
  else if jIsStr promptName "parameter_setup_prompt" then
    let description ← jGet promptArgs "description" (.str "Default parameters")
    pure (parameterPromptResult description, [])
  else
    pure (.obj [("error", .str ("Unknown prompt: " ++ pyFormat promptName))], [])

/-- The `if/elif` dispatch chain of the poller (source lines 616-776),
with line 644 read at the indentation of its branch.  Returns the value
bound to `result` together with the side-effect trace of the branch, or
the exception that escapes to the outer `except` clause. -/
def runCommand (env : HostEnv) (command params : JValue) :
    Except PyExc (JValue × List Event) :=
  if jIsStr command "list_resources" then
    .ok (listResourcesResult, [])
  else if jIsStr command "list_tools" then
    .ok (listToolsResult, [])
  else if jIsStr command "list_prompts" then
    .ok (listPromptsResult, [])
  else if jIsStr command "message_box" then do
    let message ← jGet params "message" (.str "")
    -- debug log append, display attempt, debug log append (lines 644-655)
    let _ := env.create_message_box (pyFormat message)
    pure (.str "Message processed successfully",
      [.debugLog (nm "command_message_debug.txt"),
       .display (pyFormat message),
       .debugLog (nm "command_message_debug.txt")])
  else if jIsStr command "create_new_sketch" then do
    let plane ← jGet params "plane_name" (.str "XY")
    pure (.str (env.create_new_sketch plane), [])
  else if jIsStr command "create_parameter" then do
    let name ← jGet params "name" (.str ("Param_" ++ toString (env.nowSec % 10000)))
    let expression ← jGet params "expression" (.str "10")
    let unit ← jGet params "unit" (.str "mm")
    let comment ← jGet params "comment" (.str "")
    pure (.str (env.create_parameter name expression unit comment), [])
  else if jIsStr command "read_resource" then
    readResourceBranch env params
  else if jIsStr command "get_prompt" then
    getPromptBranch params
  else
    .ok (.str ("Unknown command: " ++ pyFormat command), [])

/-! ## Processing one discovered file (source lines 588-798) -/

/-- The response document of the success path (line 780): `{"result": result}`. -/
def resultDoc (r : JValue) : JValue := .obj [("result", r)]

/-- The response document of the `json.JSONDecodeError` path (line 788):
`{"error": f"Invalid JSON format: {e}"}`. -/
def decodeErrorDoc (msg : String) : JValue :=
  .obj [("error", .str ("Invalid JSON format: " ++ msg))]

/-- The response document of the outer `except Exception` path (line 796):
`{"error": str(e)}`. -/
def outerErrorDoc (msg : String) : JValue := .obj [("error", .str msg)]

/-- Handling of one name from the `os.listdir` snapshot, source lines
588-798.  Program order of the branch:

1. filter on the `command_` / `.json` name pattern;
2. extract the correlation id, form the tombstone and response names;
3. the at-most-once guard: skip outright if either exists (lines 598-599);
4. `json.load` the body; a `JSONDecodeError` writes an error response and
   leaves the command file in place (lines 784-788);
5. `command_data.get("command")`, then `command_data.get("params", {})`;
   an exception in either (non-dict document) escapes to the outer
   `except Exception`, which writes an error response and leaves the
   command file in place (lines 789-798);
6. run the dispatch chain; an exception escapes likewise;
7. on success write `{"result": result}` and then atomically rename the
   command file to its tombstone (lines 779-783).

The returned trace lists the side effects in program order; a missing file
(`open` raising `FileNotFoundError`) also escapes to the outer clause. -/
def processOneFile (env : HostEnv) (fs : FS) (file : Name) : FS × List Event :=
  if isCommandFile file then
    let id := commandId file
    let pName := processedName id
    let rName := responseName id
    if fsExists fs pName || fsExists fs rName then (fs, [])
    else
      match fsGet fs file with
      | none =>
        let doc := FileData.jsonDoc (outerErrorDoc "FileNotFoundError")
        (fsWrite fs rName doc, [.write rName doc])
      | some content =>
        match pyJsonLoad content with
        | .error e =>
          let doc := FileData.jsonDoc (decodeErrorDoc e.message)
          (fsWrite fs rName doc, [.write rName doc])
        | .ok data =>
          match jGet data "command" .null with
          | .error e =>
            let doc := FileData.jsonDoc (outerErrorDoc e.message)
            (fsWrite fs rName doc, [.write rName doc])
          | .ok command =>
            match jGet data "params" (.obj []) with
            | .error e =>
              let doc := FileData.jsonDoc (outerErrorDoc e.message)
              (fsWrite fs rName doc, [.write rName doc])
            | .ok params =>
              match runCommand env command params with
              | .error e =>
                let doc := FileData.jsonDoc (outerErrorDoc e.message)
                (fsWrite fs rName doc, [.write rName doc])
              | .ok (result, branchEvs) =>
                let doc := FileData.jsonDoc (resultDoc result)
                let fs1 := fsWrite fs rName doc
                let fs2 := fsRename fs1 file pName
                (fs2, .handlerRun id command :: branchEvs
                        ++ [.write rName doc, .rename file pName])
  else (fs, [])

/-! ## One poll pass over one directory (source lines 526-806) -/

/-- The signal-file step, source lines 532-584: if `message_box.txt`
exists, log, read it, attempt the display, and atomically rename it to
`processed_message_<unixtime>.txt`. -/
def handleSignalFile (env : HostEnv) (fs : FS) : FS × List Event :=
  if fsExists fs (nm "message_box.txt") then
    let message :=
      match fsGet fs (nm "message_box.txt") with
      | some (.text s) => s
      | some (.jsonDoc v) => pyFormat v
      | some (.invalid s) => s
      | none => ""
    let dst := nm "processed_message_" ++ nm (toString env.nowSec) ++ nm ".txt"
    let _ := env.create_message_box message
    (fsRename fs (nm "message_box.txt") dst,
     [.debugLog (nm "message_box_processing.txt"),
      .display message,
      .debugLog (nm "message_box_processing.txt"),
      .rename (nm "message_box.txt") dst,
      .debugLog (nm "message_box_processing.txt")])
  else (fs, [])

/-- Left-to-right handling of the names of the `os.listdir` snapshot
(the `for file in os.listdir(comm_dir)` loop, line 587). -/
def pollFiles (env : HostEnv) : FS → List Name → FS × List Event
  | fs, [] => (fs, [])
  | fs, f :: rest =>
    let step := processOneFile env fs f
    let next := pollFiles env step.1 rest
    (next.1, step.2 ++ next.2)

/-- One pass of the poller over one watched directory: the signal-file
step, then the snapshot of the listing, then each listed name in order.
Per-file failures never abort the pass (every branch of `processOneFile`
is a terminating total function, mirroring the per-file `try/except`). -/
def pollDirPass (env : HostEnv) (fs : FS) : FS × List Event :=
  let sig := handleSignalFile env fs
  let rest := pollFiles env sig.1 (fsList sig.1)
  (rest.1, sig.2 ++ rest.2)

/-! ## The workspace resolver `get_workspace_paths` (source lines 17-38) -/

/-- Python `os.path.dirname` on a slash-separated path. -/
def pyDirname (p : String) : String :=
  let parts := p.splitOn "/"
  if parts.length ≤ 1 then "" else String.intercalate "/" parts.dropLast

/-- Python `os.path.join` for the one shape the resolver uses. -/
def pjoin (a b : String) : String := if a = "" then b else a ++ "/" ++ b

/-- The filesystem and environment the resolver consults.  `file` is the
module's `__file__` (an absolute path); `envVar` is
`os.getenv("FUSION_MCP_WORKSPACE")`; `isdir` is `os.path.isdir`; `makedirs`
is `os.makedirs(..., exist_ok=True)`, which may raise (e.g. a
`PermissionError`), carried as the error message.  `os.path.abspath` is
the identity on these already-absolute paths, and
`os.path.abspath(os.path.join(p, os.pardir))` resolves to `p`'s parent,
i.e. `pyDirname p`. -/
structure FsEnv where
  file : String
  envVar : Option String
  isdir : String → Bool
  makedirs : String → Except String Unit

/-- The `addon_path` both blocks compute:
`os.path.dirname(os.path.dirname(__file__))`. -/
def addonPath (env : FsEnv) : String := pyDirname (pyDirname env.file)

/-- The workspace path the `try` block selects (lines 20-27): the
environment override when it is a non-empty name of an existing directory,
else the parent of the add-in folder when that exists, else the add-in
folder. -/
def triedWorkspacePath (env : FsEnv) : String :=
  let derived :=
    let candidate := pyDirname (addonPath env)
    if env.isdir candidate then candidate else addonPath env
  match env.envVar with
  | some p => if p ≠ "" && env.isdir p then p else derived
  | none => derived

/-- `get_workspace_paths` (source lines 17-38): the `try` block resolves
the workspace and creates `<workspace>/mcp_comm`; on any exception the
`except` block falls back to the add-in folder and creates its `mcp_comm`
— with no inner `try`, so a failure of that `os.makedirs` propagates to
the caller. -/
def get_workspace_paths (env : FsEnv) : Except String (String × String) :=
  let tryBlock : Except String (String × String) :=
    match env.makedirs (pjoin (triedWorkspacePath env) "mcp_comm") with
    | .ok _ => .ok (triedWorkspacePath env,
                    pjoin (triedWorkspacePath env) "mcp_comm")
    | .error e => .error e
  match tryBlock with
  | .ok r => .ok r
  | .error _ =>
    match env.makedirs (pjoin (addonPath env) "mcp_comm") with
    | .ok _ => .ok (addonPath env, pjoin (addonPath env) "mcp_comm")
    | .error e => .error e

/-! ## Lifecycle: `stop_server` (source lines 905-919) -/

/-- A live thread handle as `stop_server` can observe it: whether
`is_alive()` returns true, and how many milliseconds the thread still
needs before it terminates (opaque to the caller). -/
structure ThreadInfo where
  alive : Bool
  msToExit : Nat

/-- The process-wide state `stop_server` reads: the `server_running` flag,
the `server_thread` global (None before the first start), and — present in
the process but *not reachable from `stop_server`*, being a local of
`run_mcp_server` — the poller thread `file_monitor`. -/
structure LifecycleState where
  server_running : Bool
  server_thread : Option ThreadInfo
  file_monitor : Option ThreadInfo

/-- A join performed during shutdown, with the timeout passed to
`Thread.join`. -/
inductive JoinEv where
  | join (thread : String) (timeoutMs : Nat)

/-- Milliseconds a `join(timeout)` call blocks: the thread's remaining
time, capped by the timeout. -/
def joinCost (t : ThreadInfo) (timeoutMs : Nat) : Nat :=
  if t.alive then min t.msToExit timeoutMs else 0

/-- `stop_server` (source lines 905-919): returns immediately when the
flag is already false; otherwise clears the flag and, when the
`server_thread` global holds a live thread, joins it with `timeout=2.0`
seconds.  The returned trace lists the joins performed, and the cost is
the total blocking time in milliseconds. -/
def stop_server (s : LifecycleState) : LifecycleState × List JoinEv :=
  if ¬ s.server_running then (s, [])
  else
    let s1 := { s with server_running := false }
    match s.server_thread with
    | some t =>
      if t.alive then (s1, [.join "server_thread" 2000]) else (s1, [])
    | none => (s1, [])

/-- Total blocking time of a shutdown trace, given the thread handles. -/
def shutdownCost (s : LifecycleState) : List JoinEv → Nat
  | [] => 0
  | .join th timeoutMs :: rest =>
    (if th = "server_thread" then
       match s.server_thread with
       | some t => joinCost t timeoutMs
       | none => timeoutMs
     else if th = "file_monitor" then
       match s.file_monitor with
       | some t => joinCost t timeoutMs
       | none => timeoutMs
     else timeoutMs) + shutdownCost s rest

/-! ## Python assignment scoping and `server_thread_func` (lines 872-888) -/

/-- A Python variable store (one scope's bindings). -/
abbrev Store := List (String × JValue)

/-- Update or insert a binding. -/
def storeSet (st : Store) (name : String) (v : JValue) : Store :=
  if st.any (fun p => p.1 = name) then
    st.map (fun p => if p.1 = name then (name, v) else p)
  else st ++ [(name, v)]

/-- Read a binding. -/
def storeGet (st : Store) (name : String) : Option JValue :=
  (st.find? (fun p => p.1 = name)).map (·.2)

/-- Python's scoping rule for an assignment inside a function body: the
assignment targets the module's global store exactly when the function
declares the name in a `global` statement; otherwise it creates or updates
a function-local binding and the global store is untouched. -/
def pyAssign (declaredGlobals : List String) (name : String) (v : JValue)
    (globals locals : Store) : Store × Store :=
  if name ∈ declaredGlobals then (storeSet globals name v, locals)
  else (globals, storeSet locals name v)

/-- The `global` declarations of `start_server` (source lines 843-844). -/
def startServerGlobals : List String := ["server_thread", "server_running"]

/-- The `global` declarations of the nested `server_thread_func` (source
lines 872-884): the function body contains no `global` statement. -/
def serverThreadFuncGlobals : List String := []

/-- How a call of `run_mcp_server()` inside the thread body ends. -/
inductive RunOutcome where
  | retTrue
  | retFalse
  | raised (msg : String)

/-- The body of `server_thread_func` (source lines 872-884), as a function
of the module's global store and of how `run_mcp_server()` ends.  On the
two failure paths the source executes `server_running = False`; since the
function declares no globals, `pyAssign` routes both writes to the local
frame.  Returns (globals, locals) after the body. -/
def server_thread_func (globals : Store) (outcome : RunOutcome) :
    Store × Store :=
  match outcome with
  | .retTrue => (globals, [])
  | .retFalse =>
    pyAssign serverThreadFuncGlobals "server_running" (.bool false) globals []
  | .raised _ =>
    pyAssign serverThreadFuncGlobals "server_running" (.bool false) globals []

/-- The assignment `server_running = True` of `start_server` (source line
869), which *does* sit under a `global server_running` declaration. -/
def startServerSetRunning (globals locals : Store) : Store × Store :=
  pyAssign startServerGlobals "server_running" (.bool true) globals locals

/-! ## Python block structure: the logical-line parser model (for line 644)

A Python suite is recognised from the indentation of logical lines.  The
model below implements the documented rules CPython applies to a stream of
logical lines (comment-only and blank lines generate no tokens and are
omitted; physical lines joined by brackets form one logical line recorded
at the indentation of its first physical line):

* statements of one suite sit at exactly the suite's indentation; a larger
  indentation where a statement is expected is an `IndentationError`
  (`unexpected indent`), and the suite of a `:`-line must be strictly
  deeper than its opener (`expected an indented block`);
* a smaller indentation terminates the suite; the line is then handed to
  the enclosing constructs;
* a `try` suite must be followed by an `except` or `finally` clause at the
  `try`'s own level; anything else is the plain (non-indentation)
  `SyntaxError: expected 'except' or 'finally' block`;
* `elif`/`else`/`except`/`finally` attach to the matching construct at the
  same level, and are a plain `SyntaxError` at a position where a
  statement is expected. -/

/-- Shape of one logical line: a plain statement, or a `:`-terminated
opener, with the clause keywords distinguished. -/
inductive LineKind where
  | plain
  | ifOpen
  | elifOpen
  | elseOpen
  | tryOpen
  | exceptOpen
  | finallyOpen
  | blockOpen
deriving DecidableEq

/-- A logical line: physical line number of its first line, indentation of
that line, and its kind. -/
structure SrcLine where
  src : Nat
  indent : Nat
  kind : LineKind

/-- Build a `SrcLine`. -/
def mkL (src indent : Nat) (k : LineKind) : SrcLine := ⟨src, indent, k⟩

/-- Outcomes of the block parser.  CPython raises the first two as
`IndentationError` (a subclass reserved for indentation faults) and the
last two as plain `SyntaxError`. -/
inductive PErr where
  | unexpectedIndent (line : Nat)
  | expectedIndentedBlock (line : Nat)
  | expectedExcept (line : Nat)
  | unexpectedClause (line : Nat)
  | outOfFuel

/-- Whether CPython reports this fault as an `IndentationError`. -/
def PErr.isIndentationError : PErr → Bool
  | .unexpectedIndent _ => true
  | .expectedIndentedBlock _ => true
  | _ => false

/-- Whether a kind is a continuation clause rather than a statement. -/
def LineKind.isClause : LineKind → Bool
  | .elifOpen => true
  | .elseOpen => true
  | .exceptOpen => true
  | .finallyOpen => true
  | _ => false

mutual

/-- Zero or more statements at exactly level `lvl`; stops at a dedent or
at a clause keyword (which the enclosing construct will claim). -/
def parseStmts (fuel lvl : Nat) (input : List SrcLine) :
    Except PErr (List SrcLine) :=
  match fuel, input with
  | 0, _ => .error .outOfFuel
  | _ + 1, [] => .ok []
  | fuel + 1, l :: ls =>
    if l.indent < lvl then .ok (l :: ls)
    else if lvl < l.indent then .error (.unexpectedIndent l.src)
    else if l.kind.isClause then .ok (l :: ls)
    else
      match parseStmt fuel lvl (l :: ls) with
      | .error e => .error e
      | .ok rest => parseStmts fuel lvl rest
termination_by structural fuel

/-- One statement whose first logical line is at level `lvl`. -/
def parseStmt (fuel lvl : Nat) (input : List SrcLine) :
    Except PErr (List SrcLine) :=
  match fuel, input with
  | 0, _ => .error .outOfFuel
  | _ + 1, [] => .ok []
  | fuel + 1, l :: ls =>
    match l.kind with
    | .plain => .ok ls
    | .blockOpen => parseSuite fuel lvl l.src ls
    | .ifOpen =>
      match parseSuite fuel lvl l.src ls with
      | .error e => .error e
      | .ok rest => parseIfTail fuel lvl rest
    | .tryOpen =>
      match parseSuite fuel lvl l.src ls with
      | .error e => .error e
      | .ok rest => parseTryTail fuel lvl l.src rest
    | _ => .error (.unexpectedClause l.src)
termination_by structural fuel

/-- The indented suite demanded by a `:`-line at level `lvl` whose source
line is `opener`. -/
def parseSuite (fuel lvl opener : Nat) (input : List SrcLine) :
    Except PErr (List SrcLine) :=
  match fuel, input with
  | 0, _ => .error .outOfFuel
  | _ + 1, [] => .error (.expectedIndentedBlock opener)
  | fuel + 1, l :: ls =>
    if l.indent ≤ lvl then .error (.expectedIndentedBlock l.src)
    else parseStmts fuel l.indent (l :: ls)
termination_by structural fuel

/-- Optional `elif`/`else` clauses of an `if` at level `lvl`. -/
def parseIfTail (fuel lvl : Nat) (input : List SrcLine) :
    Except PErr (List SrcLine) :=
  match fuel, input with
  | 0, _ => .error .outOfFuel
  | _ + 1, [] => .ok []
  | fuel + 1, l :: ls =>
    if l.indent = lvl ∧ l.kind = .elifOpen then
      match parseSuite fuel lvl l.src ls with
      | .error e => .error e
      | .ok rest => parseIfTail fuel lvl rest
    else if l.indent = lvl ∧ l.kind = .elseOpen then
      parseSuite fuel lvl l.src ls
    else .ok (l :: ls)
termination_by structural fuel

/-- The mandatory `except`/`finally` clause of a `try` at level `lvl`
opened at source line `trySrc`; its absence is the plain `SyntaxError`
CPython words as `expected an except or finally block`. -/
def parseTryTail (fuel lvl trySrc : Nat) (input : List SrcLine) :
    Except PErr (List SrcLine) :=
  match fuel, input with
  | 0, _ => .error .outOfFuel
  | _ + 1, [] => .error (.expectedExcept trySrc)
  | fuel + 1, l :: ls =>
    if l.indent = lvl ∧ l.kind = .exceptOpen then
      match parseSuite fuel lvl l.src ls with
      | .error e => .error e
      | .ok rest => parseTryMore fuel lvl rest
    else if l.indent = lvl ∧ l.kind = .finallyOpen then
      parseSuite fuel lvl l.src ls
    else .error (.expectedExcept l.src)
termination_by structural fuel

/-- Further `except` clauses and the optional `else`/`finally` of a `try`. -/
def parseTryMore (fuel lvl : Nat) (input : List SrcLine) :
    Except PErr (List SrcLine) :=
  match fuel, input with
  | 0, _ => .error .outOfFuel
  | _ + 1, [] => .ok []
  | fuel + 1, l :: ls =>
    if l.indent = lvl ∧ l.kind = .exceptOpen then
      match parseSuite fuel lvl l.src ls with
      | .error e => .error e
      | .ok rest => parseTryMore fuel lvl rest
    else if l.indent = lvl ∧ l.kind = .elseOpen then
      match parseSuite fuel lvl l.src ls with
      | .error e => .error e
      | .ok rest => parseTryMore fuel lvl rest
    else if l.indent = lvl ∧ l.kind = .finallyOpen then
      parseSuite fuel lvl l.src ls
    else .ok (l :: ls)
termination_by structural fuel

end


/-- The logical lines of the statement at source lines 604-788 of
`MCPServerCommand.py` (the inner `try` of the command-file loop), exactly
as they stand in the file: physical line number of the first physical
line, its indentation in spaces, and its shape.  Comment-only and blank
lines are omitted (they generate no tokens), bracket-continued statements
are one logical line.  Note line 644: indentation 36 inside the
48-indented body of the `elif command == "message_box":` branch. -/
def fileMonitorTryStmt : List SrcLine :=
  [mkL 604 40 .tryOpen,
   mkL 605 44 .blockOpen,
   mkL 606 48 .plain,
   mkL 608 44 .plain,
   mkL 609 44 .plain,
   mkL 611 44 .plain,
   mkL 613 44 .plain,
   mkL 616 44 .ifOpen,
   mkL 618 48 .plain,
   mkL 623 48 .plain,
   mkL 624 44 .elifOpen,
   mkL 626 48 .plain,
   mkL 631 48 .plain,
   mkL 632 44 .elifOpen,
   mkL 634 48 .plain,
   mkL 638 48 .plain,
   mkL 639 44 .elifOpen,
   mkL 641 48 .plain,
   mkL 644 36 .plain,
   mkL 645 48 .blockOpen,
   mkL 646 52 .plain,
   mkL 649 48 .tryOpen,
   mkL 650 52 .plain,
   mkL 651 52 .blockOpen,
   mkL 652 56 .plain,
   mkL 653 48 .exceptOpen,
   mkL 654 52 .blockOpen,
   mkL 655 56 .plain,
   mkL 657 48 .plain,
   mkL 658 44 .elifOpen,
   mkL 660 48 .plain,
   mkL 661 44 .elifOpen,
   mkL 663 48 .plain,
   mkL 669 44 .elifOpen,
   mkL 671 48 .plain,
   mkL 672 48 .ifOpen,
   mkL 673 52 .tryOpen,
   mkL 674 56 .plain,
   mkL 675 56 .ifOpen,
   mkL 676 60 .plain,
   mkL 681 56 .elseOpen,
   mkL 682 60 .plain,
   mkL 683 52 .exceptOpen,
   mkL 684 56 .plain,
   mkL 685 48 .elifOpen,
   mkL 686 52 .tryOpen,
   mkL 687 56 .plain,
   mkL 688 56 .ifOpen,
   mkL 689 60 .plain,
   mkL 690 56 .elseOpen,
   mkL 691 60 .plain,
   mkL 692 60 .ifOpen,
   mkL 693 64 .plain,
   mkL 694 60 .elseOpen,
   mkL 696 64 .plain,
   mkL 697 64 .plain,
   mkL 700 64 .plain,
   mkL 709 52 .exceptOpen,
   mkL 710 56 .plain,
   mkL 711 48 .elifOpen,
   mkL 712 52 .tryOpen,
   mkL 713 56 .plain,
   mkL 714 56 .ifOpen,
   mkL 715 60 .plain,
   mkL 716 56 .elseOpen,
   mkL 717 60 .plain,
   mkL 718 60 .ifOpen,
   mkL 719 64 .plain,
   mkL 720 60 .elseOpen,
   mkL 722 64 .plain,
   mkL 724 64 .plain,
   mkL 725 64 .ifOpen,
   mkL 726 68 .blockOpen,
   mkL 727 72 .plain,
   mkL 735 64 .plain,
   mkL 736 52 .exceptOpen,
   mkL 737 56 .plain,
   mkL 738 48 .elseOpen,
   mkL 739 52 .plain,
   mkL 740 44 .elifOpen,
   mkL 742 48 .plain,
   mkL 743 48 .plain,
   mkL 745 48 .ifOpen,
   mkL 746 52 .plain,
   mkL 747 52 .plain,
   mkL 759 48 .elifOpen,
   mkL 760 52 .plain,
   mkL 761 52 .plain,
   mkL 773 48 .elseOpen,
   mkL 774 52 .plain,
   mkL 775 44 .elseOpen,
   mkL 776 48 .plain,
   mkL 779 44 .blockOpen,
   mkL 780 48 .plain,
   mkL 783 44 .plain,
   mkL 784 40 .exceptOpen,
   mkL 786 44 .plain,
   mkL 787 44 .blockOpen,
   mkL 788 48 .plain]

/-- Run the block parser on a statement sequence at level `lvl`. -/
def parsePython (lvl : Nat) (ls : List SrcLine) : Except PErr (List SrcLine) :=
  parseStmts 1000 lvl ls


/-! ## Basic facts about the file store -/

theorem fsExists_nil (n : Name) : fsExists [] n = false := rfl

theorem fsExists_cons (p : Name × FileData) (fs : FS) (n : Name) :
    fsExists (p :: fs) n = (decide (p.1 = n) || fsExists fs n) := by
  simp [fsExists]

theorem fsExists_iff_mem (fs : FS) (n : Name) :
    fsExists fs n = true ↔ ∃ d, (n, d) ∈ fs := by
  induction fs with
  | nil => simp [fsExists]
  | cons p fs ih =>
    rw [fsExists_cons, Bool.or_eq_true, decide_eq_true_eq, ih]
    constructor
    · rintro (h | ⟨d, hd⟩)
      · exact ⟨p.2, by rw [← h, Prod.mk.eta]; exact List.mem_cons_self _ _⟩
      · exact ⟨d, List.mem_cons_of_mem _ hd⟩
    · rintro ⟨d, hd⟩
      rcases List.mem_cons.mp hd with h | h
      · left; rw [← h]
      · right; exact ⟨d, h⟩

theorem fsGet_some_exists (fs : FS) (n : Name) (d : FileData)
    (h : fsGet fs n = some d) : fsExists fs n = true := by
  induction fs with
  | nil => simp [fsGet] at h
  | cons p fs ih =>
    rw [fsExists_cons]
    by_cases hp : p.1 = n
    · simp [hp]
    · simp only [fsGet, List.find?_cons, decide_eq_false hp] at h
      rw [ih h]
      simp

theorem fsExists_fsWrite (fs : FS) (n m : Name) (d : FileData) :
    fsExists (fsWrite fs n d) m = (fsExists fs m || decide (n = m)) := by
  unfold fsWrite
  split
  · rename_i hex
    induction fs with
    | nil => simp [fsExists] at hex
    | cons p fs ih =>
      rw [fsExists_cons, Bool.or_eq_true] at hex
      by_cases hp : p.1 = n
      · simp only [List.map_cons, if_pos hp, fsExists_cons]
        by_cases hfs : fsExists fs n = true
        · rw [ih hfs]
          by_cases hnm : n = m
          · simp [hnm]
          · simp [hnm, hp]
        · -- the tail may or may not rewrite further; go elementwise
          have htail : fsExists (List.map (fun p => if p.1 = n then (n, d) else p) fs) m
              = fsExists fs m := by
            clear ih hex
            induction fs with
            | nil => rfl
            | cons q fs ihq =>
              rw [fsExists_cons] at hfs
              simp only [Bool.or_eq_true, not_or] at hfs
              by_cases hq : q.1 = n
              · exact absurd (by simp [hq]) hfs.1
              · simp only [List.map_cons, if_neg hq, fsExists_cons]
                rw [ihq (by simpa using hfs.2)]
          rw [htail]
          by_cases hnm : n = m
          · simp [hnm, hp]
          · simp [hnm, hp]
      · have hfs : fsExists fs n = true := by
          rcases hex with h | h
          · exact absurd (by simpa using h) hp
          · exact h
        simp only [List.map_cons, if_neg hp, fsExists_cons]
        rw [ih hfs]
        rw [Bool.or_assoc]
  · rename_i hex
    induction fs with
    | nil => simp [fsExists, eq_comm]
    | cons p fs ih =>
      rw [fsExists_cons] at hex
      simp only [Bool.or_eq_true, not_or] at hex
      simp only [List.cons_append, fsExists_cons]
      rw [ih (by simpa using hex.2)]
      rw [Bool.or_assoc]

theorem fsExists_fsRemove_other (fs : FS) (n m : Name) (h : ¬ m = n) :
    fsExists (fsRemove fs n) m = fsExists fs m := by
  induction fs with
  | nil => rfl
  | cons p fs ih =>
    unfold fsRemove
    by_cases hp : p.1 = n
    · rw [List.filter_cons_of_neg (by simpa using hp)]
      rw [fsExists_cons]
      have : decide (p.1 = m) = false := by
        apply decide_eq_false
        intro hc
        exact h (by rw [← hc, hp])
      rw [this]
      simpa [fsRemove] using ih
    · rw [List.filter_cons_of_pos (by simpa using hp)]
      rw [fsExists_cons, fsExists_cons]
      simpa [fsRemove] using congrArg (decide (p.1 = m) || ·) ih

theorem fsGet_fsWrite_self (fs : FS) (n : Name) (d : FileData) :
    fsGet (fsWrite fs n d) n = some d := by
  unfold fsWrite
  split
  · rename_i hex
    induction fs with
    | nil => simp [fsExists] at hex
    | cons p fs ih =>
      rw [fsExists_cons, Bool.or_eq_true] at hex
      by_cases hp : p.1 = n
      · simp [fsGet, List.find?_cons, hp]
      · have hfs : fsExists fs n = true := by
          rcases hex with h | h
          · exact absurd (by simpa using h) hp
          · exact h
        simp only [List.map_cons, if_neg hp, fsGet, List.find?_cons,
          decide_eq_false hp]
        exact ih hfs
  · rename_i hex
    rw [Bool.not_eq_true] at hex
    induction fs with
    | nil => simp [fsGet]
    | cons p fs ih =>
      rw [fsExists_cons] at hex
      have h1 : decide (p.1 = n) = false := by
        cases hd : decide (p.1 = n)
        · rfl
        · rw [hd] at hex; simp at hex
      have h2 : fsExists fs n = false := by
        cases hd : fsExists fs n
        · rfl
        · rw [hd] at hex; simp at hex
      simp only [List.cons_append, fsGet, List.find?_cons, h1]
      exact ih h2

theorem fsGet_fsWrite_other (fs : FS) (n m : Name) (d : FileData) (h : ¬ m = n) :
    fsGet (fsWrite fs n d) m = fsGet fs m := by
  unfold fsWrite
  split
  · rename_i hex
    clear hex
    induction fs with
    | nil => rfl
    | cons p fs ih =>
      by_cases hp : p.1 = n
      · have h1 : decide ((n, d).1 = m) = false :=
          decide_eq_false (by intro hc; exact h hc.symm)
        have h2 : decide (p.1 = m) = false :=
          decide_eq_false (by intro hc; exact h (by rw [← hc, hp]))
        simp only [List.map_cons, if_pos hp, fsGet, List.find?_cons, h1, h2]
        exact ih
      · simp only [List.map_cons, if_neg hp, fsGet, List.find?_cons]
        cases hd : decide (p.1 = m)
        · exact ih
        · simp
  · unfold fsGet
    rw [List.find?_append]
    have hone : List.find? (fun p => decide (p.1 = m)) [(n, d)] = none := by
      simp only [List.find?_cons, decide_eq_false (fun hc => h (Eq.symm hc))]
      rfl
    rw [hone]
    cases List.find? (fun p => decide (p.1 = m)) fs <;> simp

theorem fsExists_fsRename_other (fs : FS) (old new m : Name)
    (hm : ¬ m = old) (h : fsExists fs m = true) :
    fsExists (fsRename fs old new) m = true := by
  unfold fsRename
  cases hg : fsGet fs old with
  | none => exact h
  | some d =>
    rw [fsExists_fsWrite, fsExists_fsRemove_other fs old m hm, h]
    simp

/-! ## Name shapes: command, response and tombstone names never collide -/

theorem head_of_isPrefixOf (a : Char) (pre file : Name)
    (h : (a :: pre).isPrefixOf file = true) : ∃ rest, file = a :: rest := by
  cases file with
  | nil => simp [List.isPrefixOf] at h
  | cons b bs =>
    simp only [List.isPrefixOf, Bool.and_eq_true, beq_iff_eq] at h
    exact ⟨bs, by rw [h.1]⟩

theorem isCommandFile_starts_c (file : Name) (h : isCommandFile file = true) :
    ∃ rest, file = 'c' :: rest := by
  unfold isCommandFile at h
  rw [Bool.and_eq_true] at h
  have h1 := h.1
  have : nm "command_" = 'c' :: nm "ommand_" := rfl
  rw [this] at h1
  exact head_of_isPrefixOf _ _ _ h1

theorem commandFile_ne_responseName (file : Name) (h : isCommandFile file = true)
    (id : Name) : ¬ file = responseName id := by
  obtain ⟨rest, hf⟩ := isCommandFile_starts_c file h
  intro hc
  have : responseName id = 'r' :: (nm "esponse_" ++ id ++ nm ".json") := rfl
  rw [hf, this] at hc
  exact absurd (List.cons.inj hc).1 (by decide)

theorem commandFile_ne_processedName (file : Name) (h : isCommandFile file = true)
    (id : Name) : ¬ file = processedName id := by
  obtain ⟨rest, hf⟩ := isCommandFile_starts_c file h
  intro hc
  have : processedName id = 'p' :: (nm "rocessed_command_" ++ id ++ nm ".json") := rfl
  rw [hf, this] at hc
  exact absurd (List.cons.inj hc).1 (by decide)

theorem responseName_ne_processedName (i j : Name) :
    ¬ responseName i = processedName j := by
  intro hc
  have h1 : responseName i = 'r' :: (nm "esponse_" ++ i ++ nm ".json") := rfl
  have h2 : processedName j = 'p' :: (nm "rocessed_command_" ++ j ++ nm ".json") := rfl
  rw [h1, h2] at hc
  exact absurd (List.cons.inj hc).1 (by decide)

/-! ## What `file.split("_")[1].split(".")[0]` computes -/

/-- The longest prefix of a name before the first occurrence of `sep`. -/
def cutAt (sep : Char) : Name → Name
  | [] => []
  | c :: cs => if c = sep then [] else c :: cutAt sep cs

/-- The longest prefix of an id containing neither an underscore nor a
dot: the part of the id the poller's extraction actually keeps. -/
def firstSegment : Name → Name
  | [] => []
  | c :: cs => if c = '_' ∨ c = '.' then [] else c :: firstSegment cs

theorem pySplit_ne_nil (sep : Char) (l : Name) : pySplit sep l ≠ [] := by
  cases l with
  | nil => simp [pySplit]
  | cons c cs =>
    unfold pySplit
    by_cases hc : c = sep
    · simp [hc]
    · simp only [if_neg hc]
      cases pySplit sep cs <;> simp

theorem pySplit_append_sep (sep : Char) (A B : Name)
    (h : ∀ c ∈ A, ¬ c = sep) :
    pySplit sep (A ++ sep :: B) = A :: pySplit sep B := by
  induction A with
  | nil => simp [pySplit]
  | cons a A ih =>
    have ha : ¬ a = sep := h a (List.mem_cons_self _ _)
    have ih' := ih (fun c hc => h c (List.mem_cons_of_mem _ hc))
    rw [List.cons_append]
    conv_lhs => rw [pySplit]
    rw [if_neg ha, ih']

theorem pySplit_getD_zero (sep : Char) (l : Name) :
    (pySplit sep l).getD 0 [] = cutAt sep l := by
  induction l with
  | nil => rfl
  | cons c cs ih =>
    unfold pySplit cutAt
    by_cases hc : c = sep
    · simp [hc]
    · simp only [if_neg hc]
      cases hp : pySplit sep cs with
      | nil => exact absurd hp (pySplit_ne_nil sep cs)
      | cons h t =>
        rw [hp] at ih
        simp only [List.getD_cons_zero] at ih ⊢
        rw [ih]

theorem cutAt_cutAt (l : Name) :
    cutAt '.' (cutAt '_' l) = firstSegment l := by
  induction l with
  | nil => rfl
  | cons c cs ih =>
    by_cases h1 : c = '_'
    · subst h1
      simp [cutAt, firstSegment]
    · by_cases h2 : c = '.'
      · subst h2
        simp [cutAt, firstSegment, h1]
      · simp [cutAt, firstSegment, h1, h2, ih]

theorem firstSegment_append_dot (id rest : Name) :
    firstSegment (id ++ '.' :: rest) = firstSegment id := by
  induction id with
  | nil => simp [firstSegment]
  | cons c cs ih =>
    unfold firstSegment
    by_cases h : c = '_' ∨ c = '.'
    · simp [h]
    · simp only [List.cons_append, if_neg h]
      rw [ih]

theorem firstSegment_ne_of_sep (id : Name)
    (h : '_' ∈ id ∨ '.' ∈ id) : firstSegment id ≠ id := by
  induction id with
  | nil => rcases h with h | h <;> simp at h
  | cons c cs ih =>
    unfold firstSegment
    by_cases hc : c = '_' ∨ c = '.'
    · simp [hc]
    · simp only [if_neg hc]
      intro heq
      have htail : firstSegment cs = cs := (List.cons.inj heq).2
      apply ih _ htail
      rcases h with h | h
      · rcases List.mem_cons.mp h with h | h
        · exact absurd (Or.inl h.symm) hc
        · exact Or.inl h
      · rcases List.mem_cons.mp h with h | h
        · exact absurd (Or.inr h.symm) hc
        · exact Or.inr h

theorem commandId_wrapped (id : Name) :
    commandId (nm "command_" ++ id ++ nm ".json") = firstSegment id := by
  have hsplit : nm "command_" ++ id ++ nm ".json"
      = nm "command" ++ '_' :: (id ++ nm ".json") := by
    have : nm "command_" = nm "command" ++ ['_'] := rfl
    rw [this]
    simp [List.append_assoc]
  unfold commandId
  rw [hsplit, pySplit_append_sep '_' (nm "command") _ (by decide)]
  have hjson : (nm ".json" : Name) = '.' :: nm "json" := rfl
  simp only [List.getD_cons_succ, List.getD_cons_zero]
  rw [show ((pySplit '_' (id ++ nm ".json")).getD 0 []) = cutAt '_' (id ++ nm ".json")
      from pySplit_getD_zero '_' _]
  rw [pySplit_getD_zero '.' _, cutAt_cutAt, hjson, firstSegment_append_dot]

/-! ## Traces: neutral events, handler counting -/

/-- Events that do not change the polled directory (logging, display,
handler bookkeeping). -/
def fsNeutral : Event → Bool
  | .write _ _ => false
  | .rename _ _ => false
  | .delete _ => false
  | _ => true

theorem applyEvent_neutral (fs : FS) (e : Event) (h : fsNeutral e = true) :
    applyEvent fs e = fs := by
  cases e <;> simp [fsNeutral] at h ⊢ <;> rfl

theorem applyEvents_neutral (fs : FS) (evs : List Event)
    (h : ∀ e ∈ evs, fsNeutral e = true) : applyEvents fs evs = fs := by
  induction evs generalizing fs with
  | nil => rfl
  | cons e evs ih =>
    unfold applyEvents
    rw [List.foldl_cons, applyEvent_neutral fs e (h e (List.mem_cons_self _ _))]
    exact ih fs (fun e he => h e (List.mem_cons_of_mem _ he))

/-- Number of handler invocations for a given correlation id in a trace. -/
def countHandlerRuns (id : Name) (evs : List Event) : Nat :=
  evs.countP (fun e =>
    match e with
    | .handlerRun i _ => decide (i = id)
    | _ => false)

theorem countHandlerRuns_nil (id : Name) : countHandlerRuns id [] = 0 := rfl

theorem countHandlerRuns_append (id : Name) (l₁ l₂ : List Event) :
    countHandlerRuns id (l₁ ++ l₂)
      = countHandlerRuns id l₁ + countHandlerRuns id l₂ := by
  unfold countHandlerRuns
  exact List.countP_append _ _ _

/-! ## The shape of a dispatch branch's trace -/

theorem readResourceBranch_ok_events (env : HostEnv) (p r : JValue)
    (evs : List Event) (h : readResourceBranch env p = .ok (r, evs)) :
    evs = [] := by
  unfold readResourceBranch at h
  cases hu : jGet p "uri" (.str "") with
  | error e =>
    rw [hu] at h
    simp [Bind.bind, Except.bind] at h
  | ok uri =>
    rw [hu] at h
    simp only [Bind.bind, Except.bind] at h
    split_ifs at h <;>
      · simp only [pure, Except.pure, Except.ok.injEq] at h
        exact (Prod.mk.injEq _ _ _ _ ▸ h).2.symm ▸ rfl

theorem getPromptBranch_ok_events (p r : JValue)
    (evs : List Event) (h : getPromptBranch p = .ok (r, evs)) :
    evs = [] := by
  unfold getPromptBranch at h
  cases hn : jGet p "name" (.str "") with
  | error e => rw [hn] at h; simp [Bind.bind, Except.bind] at h
  | ok pname =>
    rw [hn] at h
    simp only [Bind.bind, Except.bind] at h
    cases ha : jGet p "args" (.obj []) with
    | error e => rw [ha] at h; simp at h
    | ok pargs =>
      rw [ha] at h
      simp only at h
      split_ifs at h
      · cases hd : jGet pargs "description" (.str "Default sketch") with
        | error e => rw [hd] at h; simp at h
        | ok d =>
          rw [hd] at h
          simp only [pure, Except.pure, Except.ok.injEq] at h
          exact ((Prod.mk.injEq _ _ _ _).mp h).2.symm
      · cases hd : jGet pargs "description" (.str "Default parameters") with
        | error e => rw [hd] at h; simp at h
        | ok d =>
          rw [hd] at h
          simp only [pure, Except.pure, Except.ok.injEq] at h
          exact ((Prod.mk.injEq _ _ _ _).mp h).2.symm
      · simp only [pure, Except.pure, Except.ok.injEq] at h
        exact ((Prod.mk.injEq _ _ _ _).mp h).2.symm

/-- Every successful dispatch branch produces either no trace at all or the
three log/display events of the `message_box` branch. -/
theorem runCommand_ok_events (env : HostEnv) (c p r : JValue) (evs : List Event)
    (h : runCommand env c p = .ok (r, evs)) :
    evs = [] ∨ ∃ m, evs =
      [.debugLog (nm "command_message_debug.txt"), .display m,
       .debugLog (nm "command_message_debug.txt")] := by
  unfold runCommand at h
  split_ifs at h
  · left; exact ((Prod.mk.injEq _ _ _ _).mp (Except.ok.inj h)).2.symm
  · left; exact ((Prod.mk.injEq _ _ _ _).mp (Except.ok.inj h)).2.symm
  · left; exact ((Prod.mk.injEq _ _ _ _).mp (Except.ok.inj h)).2.symm
  · -- message_box
    cases hm : jGet p "message" (.str "") with
    | error e => rw [hm] at h; simp [Bind.bind, Except.bind] at h
    | ok m =>
      rw [hm] at h
      simp only [Bind.bind, Except.bind, pure, Except.pure, Except.ok.injEq] at h
      right
      exact ⟨pyFormat m, ((Prod.mk.injEq _ _ _ _).mp h).2.symm⟩
  · -- create_new_sketch
    cases hm : jGet p "plane_name" (.str "XY") with
    | error e => rw [hm] at h; simp [Bind.bind, Except.bind] at h
    | ok m =>
      rw [hm] at h
      simp only [Bind.bind, Except.bind, pure, Except.pure, Except.ok.injEq] at h
      left; exact ((Prod.mk.injEq _ _ _ _).mp h).2.symm
  · -- create_parameter
    cases h1 : jGet p "name" (.str ("Param_" ++ toString (env.nowSec % 10000))) with
    | error e => rw [h1] at h; simp [Bind.bind, Except.bind] at h
    | ok v1 =>
      rw [h1] at h
      simp only [Bind.bind, Except.bind] at h
      cases h2 : jGet p "expression" (.str "10") with
      | error e => rw [h2] at h; simp at h
      | ok v2 =>
        rw [h2] at h
        simp only at h
        cases h3 : jGet p "unit" (.str "mm") with
        | error e => rw [h3] at h; simp at h
        | ok v3 =>
          rw [h3] at h
          simp only at h
          cases h4 : jGet p "comment" (.str "") with
          | error e => rw [h4] at h; simp at h
          | ok v4 =>
            rw [h4] at h
            simp only [pure, Except.pure, Except.ok.injEq] at h
            left; exact ((Prod.mk.injEq _ _ _ _).mp h).2.symm
  · left; exact readResourceBranch_ok_events env p r evs h
  · left; exact getPromptBranch_ok_events p r evs h
  · left; exact ((Prod.mk.injEq _ _ _ _).mp (Except.ok.inj h)).2.symm

theorem runCommand_ok_events_neutral (env : HostEnv) (c p r : JValue)
    (evs : List Event) (h : runCommand env c p = .ok (r, evs)) :
    ∀ e ∈ evs, fsNeutral e = true := by
  rcases runCommand_ok_events env c p r evs h with h | ⟨m, h⟩ <;> subst h
  · intro e he; simp at he
  · intro e he
    rcases List.mem_cons.mp he with h | he
    · subst h; rfl
    rcases List.mem_cons.mp he with h | he
    · subst h; rfl
    rcases List.mem_cons.mp he with h | he
    · subst h; rfl
    · simp at he

theorem runCommand_ok_events_no_handler (env : HostEnv) (c p r : JValue)
    (evs : List Event) (h : runCommand env c p = .ok (r, evs)) (id : Name) :
    countHandlerRuns id evs = 0 := by
  rcases runCommand_ok_events env c p r evs h with h | ⟨m, h⟩ <;> subst h <;>
    simp [countHandlerRuns, List.countP_cons]

/-! ## Case analysis of one file's handling -/

/-- Elimination principle mirroring the three ways `processOneFile` can
end: untouched directory (filtered name or dedup skip), an error response
written with the command file left in place, or the success path (response
written, then the atomic tombstone rename). -/
theorem processOneFile_elim (env : HostEnv) (fs : FS) (file : Name)
    (motive : FS × List Event → Prop)
    (h_noop : motive (fs, []))
    (h_err : ∀ doc : JValue,
      ((∃ msg, doc = decodeErrorDoc msg) ∨ (∃ msg, doc = outerErrorDoc msg)) →
      isCommandFile file = true →
      fsExists fs (processedName (commandId file)) = false →
      fsExists fs (responseName (commandId file)) = false →
      motive (fsWrite fs (responseName (commandId file)) (.jsonDoc doc),
              [.write (responseName (commandId file)) (.jsonDoc doc)]))
    (h_ok : ∀ command params result branchEvs, isCommandFile file = true →
      fsExists fs (processedName (commandId file)) = false →
      fsExists fs (responseName (commandId file)) = false →
      runCommand env command params = .ok (result, branchEvs) →
      motive (fsRename
                (fsWrite fs (responseName (commandId file))
                  (.jsonDoc (resultDoc result)))
                file (processedName (commandId file)),
              .handlerRun (commandId file) command :: branchEvs
                ++ [.write (responseName (commandId file))
                      (.jsonDoc (resultDoc result)),
                    .rename file (processedName (commandId file))])) :
    motive (processOneFile env fs file) := by
  unfold processOneFile
  split
  · rename_i hcf
    dsimp only
    split
    · exact h_noop
    · rename_i hex
      rw [Bool.or_eq_true, not_or, Bool.not_eq_true, Bool.not_eq_true] at hex
      obtain ⟨hp, hr⟩ := hex
      split
      · exact h_err _ (Or.inr ⟨_, rfl⟩) hcf hp hr
      · rename_i content hget
        split
        · rename_i e hload
          exact h_err _ (Or.inl ⟨_, rfl⟩) hcf hp hr
        · rename_i data hload
          split
          · rename_i e hgetc
            exact h_err _ (Or.inr ⟨_, rfl⟩) hcf hp hr
          · rename_i command hgetc
            split
            · rename_i e hgetp
              exact h_err _ (Or.inr ⟨_, rfl⟩) hcf hp hr
            · rename_i params hgetp
              split
              · rename_i e hrun
                exact h_err _ (Or.inr ⟨_, rfl⟩) hcf hp hr
              · rename_i result branchEvs hrun
                exact h_ok command params result branchEvs hcf hp hr hrun
  · exact h_noop

theorem processOneFile_skip (env : HostEnv) (fs : FS) (file : Name)
    (hcf : isCommandFile file = true)
    (hex : (fsExists fs (processedName (commandId file))
            || fsExists fs (responseName (commandId file))) = true) :
    processOneFile env fs file = (fs, []) := by
  unfold processOneFile
  rw [if_pos hcf]
  dsimp only
  rw [if_pos hex]

theorem processOneFile_count_resp (env : HostEnv) (fs : FS) (f id : Name)
    (h : fsExists fs (responseName id) = true) :
    countHandlerRuns id (processOneFile env fs f).2 = 0 := by
  apply processOneFile_elim env fs f
    (fun out => countHandlerRuns id out.2 = 0)
  · rfl
  · intro doc _ _ _ _
    simp [countHandlerRuns, List.countP_cons]
  · intro command params result branchEvs hcf hp hr hrun
    have hne : decide (commandId f = id) = false := by
      apply decide_eq_false
      intro hc
      rw [hc, h] at hr
      exact Bool.true_eq_false ▸ hr
    simp only [countHandlerRuns, List.countP_cons, List.countP_append]
    have hb := runCommand_ok_events_no_handler env command params result
      branchEvs hrun id
    unfold countHandlerRuns at hb
    simp [hb, hne]

theorem processOneFile_resp_persist (env : HostEnv) (fs : FS) (f n : Name)
    (h : fsExists fs (responseName n) = true) :
    fsExists (processOneFile env fs f).1 (responseName n) = true := by
  apply processOneFile_elim env fs f
    (fun out => fsExists out.1 (responseName n) = true)
  · exact h
  · intro doc _ _ _ _
    rw [fsExists_fsWrite, h]
    rfl
  · intro command params result branchEvs hcf hp hr hrun
    apply fsExists_fsRename_other
    · intro hc
      exact commandFile_ne_responseName f hcf n hc.symm
    · rw [fsExists_fsWrite, h]
      rfl

theorem processOneFile_count_le_one (env : HostEnv) (fs : FS) (f id : Name) :
    countHandlerRuns id (processOneFile env fs f).2 ≤ 1 := by
  apply processOneFile_elim env fs f
    (fun out => countHandlerRuns id out.2 ≤ 1)
  · simp [countHandlerRuns]
  · intro doc _ _ _ _
    simp [countHandlerRuns, List.countP_cons]
  · intro command params result branchEvs hcf hp hr hrun
    have hb := runCommand_ok_events_no_handler env command params result
      branchEvs hrun id
    unfold countHandlerRuns at hb
    simp only [countHandlerRuns, List.countP_cons, List.countP_append, hb]
    split <;> simp

theorem processOneFile_run_resp (env : HostEnv) (fs : FS) (f id : Name)
    (h : countHandlerRuns id (processOneFile env fs f).2 ≠ 0) :
    fsExists (processOneFile env fs f).1 (responseName id) = true := by
  revert h
  apply processOneFile_elim env fs f
    (fun out => countHandlerRuns id out.2 ≠ 0 →
      fsExists out.1 (responseName id) = true)
  · intro h; exact absurd rfl h
  · intro doc _ _ _ _ h
    exact absurd (by simp [countHandlerRuns, List.countP_cons]) h
  · intro command params result branchEvs hcf hp hr hrun h
    have hb := runCommand_ok_events_no_handler env command params result
      branchEvs hrun id
    unfold countHandlerRuns at hb
    have hid : commandId f = id := by
      by_contra hc
      apply h
      simp [countHandlerRuns, List.countP_cons, List.countP_append, hb, hc]
    rw [← hid]
    apply fsExists_fsRename_other
    · intro hc
      exact commandFile_ne_responseName f hcf _ hc.symm
    · rw [fsExists_fsWrite]
      simp

/-! ## At-most-once across a whole pass -/

theorem pollFiles_resp_zero (env : HostEnv) (id : Name) :
    ∀ (names : List Name) (fs : FS), fsExists fs (responseName id) = true →
      countHandlerRuns id (pollFiles env fs names).2 = 0 := by
  intro names
  induction names with
  | nil => intro fs _; rfl
  | cons f rest ih =>
    intro fs h
    simp only [pollFiles]
    rw [countHandlerRuns_append, processOneFile_count_resp env fs f id h,
      ih _ (processOneFile_resp_persist env fs f id h)]

theorem pollFiles_count_le_one (env : HostEnv) (id : Name) :
    ∀ (names : List Name) (fs : FS),
      countHandlerRuns id (pollFiles env fs names).2 ≤ 1 := by
  intro names
  induction names with
  | nil => intro fs; simp [pollFiles, countHandlerRuns]
  | cons f rest ih =>
    intro fs
    simp only [pollFiles]
    rw [countHandlerRuns_append]
    by_cases h0 : countHandlerRuns id (processOneFile env fs f).2 = 0
    · rw [h0]
      simpa using ih (processOneFile env fs f).1
    · have h1 := processOneFile_count_le_one env fs f id
      have h2 := pollFiles_resp_zero env id rest _
        (processOneFile_run_resp env fs f id h0)
      omega

theorem handleSignalFile_count (env : HostEnv) (fs : FS) (id : Name) :
    countHandlerRuns id (handleSignalFile env fs).2 = 0 := by
  unfold handleSignalFile
  split
  · simp [countHandlerRuns, List.countP_cons]
  · rfl

theorem pollDirPass_count_le_one (env : HostEnv) (fs : FS) (id : Name) :
    countHandlerRuns id (pollDirPass env fs).2 ≤ 1 := by
  unfold pollDirPass
  dsimp only
  rw [countHandlerRuns_append, handleSignalFile_count]
  simpa using pollFiles_count_le_one env id _ _

/-! ## Exactly one of `result` / `error` -/

/-- Whether a JSON document (a dict) carries the given top-level key. -/
def hasKey (v : JValue) (k : String) : Bool :=
  match v with
  | .obj kvs => kvs.any (fun p => p.1 = k)
  | _ => false

/-- A response document is well-statused when it carries exactly one of
the top-level keys `result` and `error`. -/
def exactlyOneStatus (v : JValue) : Bool :=
  hasKey v "result" != hasKey v "error"

theorem exactlyOneStatus_resultDoc (r : JValue) :
    exactlyOneStatus (resultDoc r) = true := by
  simp [exactlyOneStatus, hasKey, resultDoc]

theorem exactlyOneStatus_decodeErrorDoc (msg : String) :
    exactlyOneStatus (decodeErrorDoc msg) = true := by
  simp [exactlyOneStatus, hasKey, decodeErrorDoc]

theorem exactlyOneStatus_outerErrorDoc (msg : String) :
    exactlyOneStatus (outerErrorDoc msg) = true := by
  simp [exactlyOneStatus, hasKey, outerErrorDoc]

theorem processOneFile_writes_status (env : HostEnv) (fs : FS) (file n : Name)
    (d : FileData) (h : Event.write n d ∈ (processOneFile env fs file).2) :
    ∃ v, d = .jsonDoc v ∧ exactlyOneStatus v = true := by
  revert h
  apply processOneFile_elim env fs file
    (fun out => Event.write n d ∈ out.2 →
      ∃ v, d = .jsonDoc v ∧ exactlyOneStatus v = true)
  · intro h; simp at h
  · rintro doc (⟨msg, rfl⟩ | ⟨msg, rfl⟩) _ _ _ h
    · rcases List.mem_singleton.mp h with h
      refine ⟨decodeErrorDoc msg, ?_, exactlyOneStatus_decodeErrorDoc msg⟩
      exact (Event.write.inj h).2
    · rcases List.mem_singleton.mp h with h
      refine ⟨outerErrorDoc msg, ?_, exactlyOneStatus_outerErrorDoc msg⟩
      exact (Event.write.inj h).2
  · intro command params result branchEvs hcf hp hr hrun h
    rcases List.mem_cons.mp h with h | h
    · exact absurd h (by simp)
    rcases List.mem_append.mp h with h | h
    · have := runCommand_ok_events_neutral env command params result branchEvs
        hrun _ h
      simp [fsNeutral] at this
    rcases List.mem_cons.mp h with h | h
    · refine ⟨resultDoc result, ?_, exactlyOneStatus_resultDoc result⟩
      exact (Event.write.inj h).2
    · rcases List.mem_singleton.mp h with h
      exact absurd h (by simp)

theorem handleSignalFile_no_write (env : HostEnv) (fs : FS) (n : Name)
    (d : FileData) : Event.write n d ∉ (handleSignalFile env fs).2 := by
  unfold handleSignalFile
  split
  · intro h
    simp at h
  · intro h
    simp at h

theorem pollFiles_writes_status (env : HostEnv) (n : Name) (d : FileData) :
    ∀ (names : List Name) (fs : FS),
      Event.write n d ∈ (pollFiles env fs names).2 →
      ∃ v, d = .jsonDoc v ∧ exactlyOneStatus v = true := by
  intro names
  induction names with
  | nil => intro fs h; simp [pollFiles] at h
  | cons f rest ih =>
    intro fs h
    simp only [pollFiles] at h
    rcases List.mem_append.mp h with h | h
    · exact processOneFile_writes_status env fs f n d h
    · exact ih _ h

theorem pollDirPass_writes_status (env : HostEnv) (fs : FS) (n : Name)
    (d : FileData) (h : Event.write n d ∈ (pollDirPass env fs).2) :
    ∃ v, d = .jsonDoc v ∧ exactlyOneStatus v = true := by
  unfold pollDirPass at h
  dsimp only at h
  rcases List.mem_append.mp h with h | h
  · exact absurd h (handleSignalFile_no_write env fs n d)
  · exact pollFiles_writes_status env n d _ _ h

/-! ## The trace of one handled file replays to its final directory -/

theorem applyEvents_append (fs : FS) (l₁ l₂ : List Event) :
    applyEvents fs (l₁ ++ l₂) = applyEvents (applyEvents fs l₁) l₂ := by
  unfold applyEvents
  exact List.foldl_append _ _ _ _

theorem processOneFile_replay (env : HostEnv) (fs : FS) (file : Name) :
    (processOneFile env fs file).1
      = applyEvents fs (processOneFile env fs file).2 := by
  apply processOneFile_elim env fs file
    (fun out => out.1 = applyEvents fs out.2)
  · rfl
  · intro doc _ _ _ _
    rfl
  · intro command params result branchEvs hcf hp hr hrun
    have hneu : ∀ e ∈ Event.handlerRun (commandId file) command :: branchEvs,
        fsNeutral e = true := by
      intro e he
      rcases List.mem_cons.mp he with he | he
      · subst he; rfl
      · exact runCommand_ok_events_neutral env command params result branchEvs
          hrun e he
    rw [show (Event.handlerRun (commandId file) command :: branchEvs
          ++ [Event.write (responseName (commandId file))
                (.jsonDoc (resultDoc result)),
              Event.rename file (processedName (commandId file))])
        = (Event.handlerRun (commandId file) command :: branchEvs)
          ++ [Event.write (responseName (commandId file))
                (.jsonDoc (resultDoc result)),
              Event.rename file (processedName (commandId file))] from by simp]
    rw [applyEvents_append, applyEvents_neutral fs _ hneu]
    rfl

/-! ## Claim theorems -/

/-- C5: handling of a command file never deletes; any tombstone rename it
performs is a single atomic rename of the command file to its tombstone
name, is the last event of the trace, and is immediately preceded by the
write of the response file (everything earlier leaves the directory
untouched); and — replaying the trace — at no intermediate point does the
tombstone exist without the response, provided the tombstone was absent at
the start (which the dedup check has just established). -/
theorem c5_response_before_rename (env : HostEnv) (fs : FS) (file : Name)
    (hp0 : fsExists fs (processedName (commandId file)) = false) :
    (∀ n, Event.delete n ∉ (processOneFile env fs file).2)
    ∧ (∀ src dst, Event.rename src dst ∈ (processOneFile env fs file).2 →
        src = file ∧ dst = processedName (commandId file)
        ∧ ∃ pre r, (processOneFile env fs file).2
            = pre ++ [Event.write (responseName (commandId file))
                        (.jsonDoc (resultDoc r)),
                      Event.rename file (processedName (commandId file))]
            ∧ ∀ e ∈ pre, fsNeutral e = true)
    ∧ (∀ p q, (processOneFile env fs file).2 = p ++ q →
        fsExists (applyEvents fs p) (processedName (commandId file)) = true →
        fsExists (applyEvents fs p) (responseName (commandId file)) = true) := by
  apply processOneFile_elim env fs file
    (fun out =>
      (∀ n, Event.delete n ∉ out.2)
      ∧ (∀ src dst, Event.rename src dst ∈ out.2 →
          src = file ∧ dst = processedName (commandId file)
          ∧ ∃ pre r, out.2
              = pre ++ [Event.write (responseName (commandId file))
                          (.jsonDoc (resultDoc r)),
                        Event.rename file (processedName (commandId file))]
              ∧ ∀ e ∈ pre, fsNeutral e = true)
      ∧ (∀ p q, out.2 = p ++ q →
          fsExists (applyEvents fs p) (processedName (commandId file)) = true →
          fsExists (applyEvents fs p) (responseName (commandId file)) = true))
  · refine ⟨by intro n h; simp at h, by intro src dst h; simp at h, ?_⟩
    intro p q hpq hex
    have hp : p = [] := (List.append_eq_nil.mp hpq.symm).1
    subst hp
    exact absurd hex (by rw [applyEvents]; simp [hp0])
  · rintro doc hshape hcf hp hr
    refine ⟨by intro n h; simp at h, by intro src dst h; simp at h, ?_⟩
    intro p q hpq hex
    cases p with
    | nil =>
      exact absurd hex (by rw [applyEvents]; simp [hp0])
    | cons e p' =>
      have h1 := (List.cons.inj hpq).1
      have h2 := (List.cons.inj hpq).2
      have hp' : p' = [] := (List.append_eq_nil.mp h2.symm).1
      subst hp'
      subst h1
      exfalso
      rw [show applyEvents fs [Event.write (responseName (commandId file))
            (.jsonDoc doc)]
          = fsWrite fs (responseName (commandId file)) (.jsonDoc doc) from rfl]
        at hex
      rw [fsExists_fsWrite, hp,
        decide_eq_false (responseName_ne_processedName _ _)] at hex
      simp at hex
  · intro command params result branchEvs hcf hp hr hrun
    have hneu : ∀ e ∈ Event.handlerRun (commandId file) command :: branchEvs,
        fsNeutral e = true := by
      intro e he
      rcases List.mem_cons.mp he with he | he
      · subst he; rfl
      · exact runCommand_ok_events_neutral env command params result branchEvs
          hrun e he
    have hsplit : Event.handlerRun (commandId file) command :: branchEvs
          ++ [Event.write (responseName (commandId file))
                (.jsonDoc (resultDoc result)),
              Event.rename file (processedName (commandId file))]
        = (Event.handlerRun (commandId file) command :: branchEvs)
          ++ [Event.write (responseName (commandId file))
                (.jsonDoc (resultDoc result)),
              Event.rename file (processedName (commandId file))] := by simp
    refine ⟨?_, ?_, ?_⟩
    · intro n h
      rcases List.mem_cons.mp h with h | h
      · exact absurd h (by simp)
      rcases List.mem_append.mp h with h | h
      · have := runCommand_ok_events_neutral env command params result
          branchEvs hrun _ h
        simp [fsNeutral] at this
      · simp at h
    · intro src dst h
      have hmain : src = file ∧ dst = processedName (commandId file) := by
        rcases List.mem_cons.mp h with h | h
        · exact absurd h (by simp)
        rcases List.mem_append.mp h with h | h
        · have := runCommand_ok_events_neutral env command params result
            branchEvs hrun _ h
          simp [fsNeutral] at this
        rcases List.mem_cons.mp h with h | h
        · exact absurd h (by simp)
        rcases List.mem_singleton.mp h with h
        exact ⟨(Event.rename.inj h).1, (Event.rename.inj h).2⟩
      refine ⟨hmain.1, hmain.2,
        ⟨Event.handlerRun (commandId file) command :: branchEvs, result,
         hsplit, hneu⟩⟩
    · intro p q hpq hex
      rw [hsplit] at hpq
      rcases List.append_eq_append_iff.mp hpq.symm with ⟨a', ha1, ha2⟩
        | ⟨c', hc1, hc2⟩
      · -- p is a prefix of the neutral part of the trace
        exfalso
        have hpn : ∀ e ∈ p, fsNeutral e = true := by
          intro e he
          exact hneu e (ha1 ▸ List.mem_append_left _ he)
        rw [applyEvents_neutral fs p hpn, hp0] at hex
        simp at hex
      · cases c' with
        | nil =>
          exfalso
          rw [List.append_nil] at hc1
          have hpn : ∀ e ∈ p, fsNeutral e = true := by
            intro e he
            exact hneu e (hc1 ▸ he)
          rw [applyEvents_neutral fs p hpn, hp0] at hex
          simp at hex
        | cons e1 t1 =>
          have he1 := (List.cons.inj hc2).1
          have ht1 := (List.cons.inj hc2).2
          subst he1
          cases t1 with
          | nil =>
            exfalso
            subst hc1
            rw [applyEvents_append,
              applyEvents_neutral fs _ hneu] at hex
            rw [show applyEvents fs
                  [Event.write (responseName (commandId file))
                    (.jsonDoc (resultDoc result))]
                = fsWrite fs (responseName (commandId file))
                    (.jsonDoc (resultDoc result)) from rfl] at hex
            rw [fsExists_fsWrite, hp,
              decide_eq_false (responseName_ne_processedName _ _)] at hex
            simp at hex
          | cons e2 t2 =>
            have he2 := (List.cons.inj ht1).1
            have ht2 := (List.cons.inj ht1).2
            subst he2
            have ht2nil : t2 = [] := (List.append_eq_nil.mp ht2.symm).1
            subst ht2nil
            subst hc1
            rw [applyEvents_append, applyEvents_neutral fs _ hneu]
            rw [show applyEvents fs
                  [Event.write (responseName (commandId file))
                      (.jsonDoc (resultDoc result)),
                    Event.rename file (processedName (commandId file))]
                = fsRename
                    (fsWrite fs (responseName (commandId file))
                      (.jsonDoc (resultDoc result)))
                    file (processedName (commandId file)) from rfl]
            apply fsExists_fsRename_other
            · intro hc
              exact commandFile_ne_responseName file hcf _ hc.symm
            · rw [fsExists_fsWrite]
              simp

/-- C1 (counterexample to the error classification): the block parser
fails on the statement containing line 644, but not with an
indentation-class fault: because the stray indentation 36 of line 644
matches an outer suite level, the dedent itself is legal, and what fails
is the `try` statement opened at line 604, whose suite is terminated by
the dedent before any `except` clause is seen — in CPython a plain
`SyntaxError`, not an `IndentationError`. -/
theorem c1_not_indentation_error_counterexample :
    ∃ e, parsePython 40 fileMonitorTryStmt = .error e
      ∧ e.isIndentationError = false :=
  ⟨.expectedExcept 644, rfl, rfl⟩

/-- C1 (amended): the module is indeed not syntactically valid Python —
parsing the statement of source lines 604-788 fails at the dedented line
644 — so the module cannot be parsed or imported; but the failure is the
plain `SyntaxError` "expected an except or finally block" reported at line
644, not an `IndentationError`. -/
theorem c1_line644_syntax_error_amended :
    parsePython 40 fileMonitorTryStmt = .error (.expectedExcept 644) := rfl

/-- C2: the at-most-once guard.  A command file whose tombstone or
response already exists is skipped outright (directory untouched, no
events at all, in particular no handler invocation and no write or rename
for that id), and across one whole poll pass over a directory no
correlation id sees more than one handler invocation, whatever files —
including reintroduced ones with already-handled ids — the directory
holds. -/
theorem c2_at_most_once_dispatch (env : HostEnv) (fs : FS) :
    (∀ file, isCommandFile file = true →
      (fsExists fs (processedName (commandId file))
        || fsExists fs (responseName (commandId file))) = true →
      processOneFile env fs file = (fs, []))
    ∧ (∀ id, countHandlerRuns id (pollDirPass env fs).2 ≤ 1) :=
  ⟨fun file hcf hex => processOneFile_skip env fs file hcf hex,
   fun id => pollDirPass_count_le_one env fs id⟩

/-- A concrete host environment for witnesses and counterexamples. -/
def env0 : HostEnv :=
  { nowSec := 0
    create_message_box := fun _ => true
    create_new_sketch := fun _ => "Sketch created successfully: Sketch_MCP_0"
    create_parameter := fun _ _ _ _ => "Parameter created successfully"
    read_active_document_info := .obj [("error", .str "No active document")]
    read_design_structure := .obj [("error", .str "No active document")]
    read_parameters := .obj [("error", .str "No active document")] }

/-- A directory in which id 5 already has a response and the same id is
reintroduced as a fresh command file. -/
def fsDedup : FS :=
  [(nm "response_5.json", .jsonDoc (.obj [("result", .str "done")])),
   (nm "command_5.json", .jsonDoc (.obj [("command", .str "list_tools")]))]

/-- C2 witness: on the concrete reintroduced file the guard fires —
nothing happens — and the pass as a whole runs the handler for id 5 at
most once. -/
theorem c2_at_most_once_dispatch_witness :
    processOneFile env0 fsDedup (nm "command_5.json") = (fsDedup, [])
    ∧ countHandlerRuns (nm "5") (pollDirPass env0 fsDedup).2 ≤ 1 :=
  ⟨(c2_at_most_once_dispatch env0 fsDedup).1 (nm "command_5.json") rfl rfl,
   (c2_at_most_once_dispatch env0 fsDedup).2 (nm "5")⟩

/-- A directory holding one malformed command file. -/
def fsMalformed : FS :=
  [(nm "command_9.json", .invalid "Expecting value: line 1 column 1 (char 0)")]

/-- C3 (counterexample to the rename): on a malformed command file the
poller writes the parse-failure error response, but it does *not* rename
the file to its tombstone form — the `except json.JSONDecodeError` clause
contains no `os.rename`, so the command file stays in place and no
tombstone appears. -/
theorem c3_malformed_not_renamed_counterexample :
    fsExists (processOneFile env0 fsMalformed (nm "command_9.json")).1
      (nm "processed_command_9.json") = false
    ∧ fsExists (processOneFile env0 fsMalformed (nm "command_9.json")).1
      (nm "command_9.json") = true
    ∧ fsGet (processOneFile env0 fsMalformed (nm "command_9.json")).1
      (nm "response_9.json")
      = some (.jsonDoc (.obj [("error",
          .str "Invalid JSON format: Expecting value: line 1 column 1 (char 0)")])) :=
  ⟨rfl, rfl, rfl⟩

/-- C3 (amended): a malformed command file yields an error response whose
message names the parse failure; the file is *not* renamed (it stays in
place under its command name and no tombstone is created), yet the request
is still terminal: a later pass skips it because the response file now
satisfies the dedup check. -/
theorem c3_malformed_terminal_amended (env : HostEnv) (fs : FS) (file : Name)
    (msg : String)
    (hcf : isCommandFile file = true)
    (hget : fsGet fs file = some (.invalid msg))
    (hp : fsExists fs (processedName (commandId file)) = false)
    (hr : fsExists fs (responseName (commandId file)) = false) :
    processOneFile env fs file
      = (fsWrite fs (responseName (commandId file))
           (.jsonDoc (decodeErrorDoc msg)),
         [.write (responseName (commandId file))
            (.jsonDoc (decodeErrorDoc msg))])
    ∧ fsGet (fsWrite fs (responseName (commandId file))
          (.jsonDoc (decodeErrorDoc msg))) file = some (.invalid msg)
    ∧ fsExists (fsWrite fs (responseName (commandId file))
          (.jsonDoc (decodeErrorDoc msg)))
        (processedName (commandId file)) = false
    ∧ processOneFile env
        (fsWrite fs (responseName (commandId file))
          (.jsonDoc (decodeErrorDoc msg))) file
      = (fsWrite fs (responseName (commandId file))
           (.jsonDoc (decodeErrorDoc msg)), []) := by
  have hne : ¬ file = responseName (commandId file) := by
    intro hc
    have hx := fsGet_some_exists fs file _ hget
    rw [hc] at hx
    exact absurd hx (by simp [hr])
  refine ⟨?_, ?_, ?_, ?_⟩
  · unfold processOneFile
    rw [if_pos hcf]
    dsimp only
    rw [hp, hr]
    rw [if_neg (by simp)]
    rw [hget]
    rfl
  · rw [fsGet_fsWrite_other _ _ _ _ hne]
    exact hget
  · rw [fsExists_fsWrite, hp,
      decide_eq_false (responseName_ne_processedName _ _)]
    rfl
  · apply processOneFile_skip env _ file hcf
    have h2 : fsExists (fsWrite fs (responseName (commandId file))
        (.jsonDoc (decodeErrorDoc msg))) (responseName (commandId file)) = true := by
      rw [fsExists_fsWrite]
      simp
    rw [h2, Bool.or_true]

/-- C3 witness: the amended statement applied to the concrete malformed
file: the follow-up pass leaves the directory alone. -/
theorem c3_malformed_terminal_amended_witness :
    processOneFile env0
      (fsWrite fsMalformed (responseName (commandId (nm "command_9.json")))
        (.jsonDoc (decodeErrorDoc "Expecting value: line 1 column 1 (char 0)")))
      (nm "command_9.json")
    = (fsWrite fsMalformed (responseName (commandId (nm "command_9.json")))
        (.jsonDoc (decodeErrorDoc "Expecting value: line 1 column 1 (char 0)")),
       []) :=
  (c3_malformed_terminal_amended env0 fsMalformed (nm "command_9.json")
    "Expecting value: line 1 column 1 (char 0)" rfl rfl rfl rfl).2.2.2

/-- A directory holding one well-formed command file whose command is not
a registered name. -/
def fsUnknown : FS :=
  [(nm "command_7.json", .jsonDoc (.obj [("command", .str "does_not_exist")]))]

/-- C4 (counterexample to the `error` field): on `{"command":
"does_not_exist"}` the poller's `else` branch sets `result = f"Unknown
command: {command}"` and the single success-path write emits `{"result":
result}` — the response names the unknown command in its `result` field
and has no `error` field at all. -/
theorem c4_unknown_command_result_field_counterexample :
    fsGet (processOneFile env0 fsUnknown (nm "command_7.json")).1
      (nm "response_7.json")
      = some (.jsonDoc (.obj [("result", .str "Unknown command: does_not_exist")]))
    ∧ hasKey (.obj [("result", .str "Unknown command: does_not_exist")])
        "error" = false
    ∧ hasKey (.obj [("result", .str "Unknown command: does_not_exist")])
        "result" = true :=
  ⟨rfl, rfl, rfl⟩

/-- C4 (amended): an unregistered command name yields a response whose
`result` field (not `error`) carries `Unknown command: <name>`; the file
is still consumed through the normal success path (response write, then
tombstone rename), and the poll loop simply continues with the remaining
files of the pass. -/
theorem c4_unknown_command_amended (env : HostEnv) (fs : FS) (file : Name)
    (data params : JValue) (c : String)
    (hcf : isCommandFile file = true)
    (hp : fsExists fs (processedName (commandId file)) = false)
    (hr : fsExists fs (responseName (commandId file)) = false)
    (hget : fsGet fs file = some (.jsonDoc data))
    (hgetc : jGet data "command" .null = .ok (.str c))
    (hgetp : jGet data "params" (.obj []) = .ok params)
    (hreg : ¬ c ∈ registeredCommands) :
    processOneFile env fs file
      = (fsRename
          (fsWrite fs (responseName (commandId file))
            (.jsonDoc (resultDoc (.str ("Unknown command: " ++ c)))))
          file (processedName (commandId file)),
         [.handlerRun (commandId file) (.str c),
          .write (responseName (commandId file))
            (.jsonDoc (resultDoc (.str ("Unknown command: " ++ c)))),
          .rename file (processedName (commandId file))])
    ∧ hasKey (resultDoc (.str ("Unknown command: " ++ c))) "result" = true
    ∧ hasKey (resultDoc (.str ("Unknown command: " ++ c))) "error" = false
    ∧ (∀ rest, pollFiles env fs (file :: rest)
        = ((pollFiles env (processOneFile env fs file).1 rest).1,
           (processOneFile env fs file).2
             ++ (pollFiles env (processOneFile env fs file).1 rest).2)) := by
  have hne : (¬ c = "list_resources") ∧ (¬ c = "list_tools")
      ∧ (¬ c = "list_prompts") ∧ (¬ c = "message_box")
      ∧ (¬ c = "create_new_sketch") ∧ (¬ c = "create_parameter")
      ∧ (¬ c = "read_resource") ∧ (¬ c = "get_prompt") := by
    simpa [registeredCommands, not_or] using hreg
  obtain ⟨h1, h2, h3, h4, h5, h6, h7, h8⟩ := hne
  have hrunEq : runCommand env (.str c) params
      = .ok (.str ("Unknown command: " ++ c), []) := by
    simp [runCommand, jIsStr, h1, h2, h3, h4, h5, h6, h7, h8, pyFormat]
  refine ⟨?_, by simp [hasKey, resultDoc], by simp [hasKey, resultDoc],
    fun rest => rfl⟩
  unfold processOneFile
  rw [if_pos hcf]
  dsimp only
  rw [hp, hr]
  rw [if_neg (by simp)]
  rw [hget]
  dsimp only [pyJsonLoad]
  rw [hgetc]
  dsimp only
  rw [hgetp]
  dsimp only
  rw [hrunEq]
  rfl

/-- C4 witness: the amended statement applied to the concrete
`does_not_exist` command file. -/
theorem c4_unknown_command_amended_witness :
    hasKey (resultDoc (.str ("Unknown command: " ++ "does_not_exist")))
        "result" = true
    ∧ hasKey (resultDoc (.str ("Unknown command: " ++ "does_not_exist")))
        "error" = false :=
  ⟨(c4_unknown_command_amended env0 fsUnknown (nm "command_7.json")
      (.obj [("command", .str "does_not_exist")]) (.obj []) "does_not_exist"
      rfl rfl rfl rfl rfl rfl (by decide)).2.1,
   (c4_unknown_command_amended env0 fsUnknown (nm "command_7.json")
      (.obj [("command", .str "does_not_exist")]) (.obj []) "does_not_exist"
      rfl rfl rfl rfl rfl rfl (by decide)).2.2.1⟩

/-- C6: every response document any poll pass writes — the success path's
`{"result": ...}`, the JSON-decode-failure path's `{"error": ...}` and
the outer exception path's `{"error": ...}` — is a JSON document carrying
exactly one of the top-level keys `result` and `error`, never both and
never neither. -/
theorem c6_exactly_one_of_result_error (env : HostEnv) (fs : FS) (n : Name)
    (d : FileData) (h : Event.write n d ∈ (pollDirPass env fs).2) :
    ∃ v, d = .jsonDoc v ∧ exactlyOneStatus v = true :=
  pollDirPass_writes_status env fs n d h

/-- C6 witness: the write emitted for the concrete malformed file of
`fsMalformed` is such a single-status document. -/
theorem c6_exactly_one_of_result_error_witness :
    ∃ v, FileData.jsonDoc
        (decodeErrorDoc "Expecting value: line 1 column 1 (char 0)")
        = .jsonDoc v ∧ exactlyOneStatus v = true :=
  c6_exactly_one_of_result_error env0 fsMalformed (nm "response_9.json")
    (.jsonDoc (decodeErrorDoc "Expecting value: line 1 column 1 (char 0)"))
    (by
      have hev : (pollDirPass env0 fsMalformed).2
          = [Event.write (nm "response_9.json")
              (.jsonDoc (decodeErrorDoc
                "Expecting value: line 1 column 1 (char 0)"))] := rfl
      rw [hev]
      exact List.mem_singleton_self _)

/-- C5 witness: on the concrete `does_not_exist` command file the one
rename of the trace is the atomic claim of the command file by its
tombstone name. -/
theorem c5_response_before_rename_witness :
    nm "command_7.json" = nm "command_7.json"
    ∧ nm "processed_command_7.json"
        = processedName (commandId (nm "command_7.json")) :=
  ⟨((c5_response_before_rename env0 fsUnknown (nm "command_7.json") rfl).2.1
      (nm "command_7.json") (nm "processed_command_7.json")
      (by
        have hev : (processOneFile env0 fsUnknown (nm "command_7.json")).2
            = [Event.handlerRun (nm "7") (.str "does_not_exist"),
               Event.write (nm "response_7.json")
                 (.jsonDoc (.obj [("result",
                    .str "Unknown command: does_not_exist")])),
               Event.rename (nm "command_7.json")
                 (nm "processed_command_7.json")] := rfl
        rw [hev]
        exact List.Mem.tail _ (List.Mem.tail _ (List.Mem.head _)))).1,
   ((c5_response_before_rename env0 fsUnknown (nm "command_7.json") rfl).2.1
      (nm "command_7.json") (nm "processed_command_7.json")
      (by
        have hev : (processOneFile env0 fsUnknown (nm "command_7.json")).2
            = [Event.handlerRun (nm "7") (.str "does_not_exist"),
               Event.write (nm "response_7.json")
                 (.jsonDoc (.obj [("result",
                    .str "Unknown command: does_not_exist")])),
               Event.rename (nm "command_7.json")
                 (nm "processed_command_7.json")] := rfl
        rw [hev]
        exact List.Mem.tail _ (List.Mem.tail _ (List.Mem.head _)))).2.1.symm⟩

/-- An environment in which every `os.makedirs` raises `PermissionError`. -/
def envDenied : FsEnv :=
  { file := "/opt/fusion/MCPserve/commands/MCPServerCommand.py"
    envVar := none
    isdir := fun _ => true
    makedirs := fun _ => .error "PermissionError: [Errno 13] Permission denied" }

/-- C7 (counterexample to never-raises): when both the derivation's
`os.makedirs` and the fallback's `os.makedirs` raise, `get_workspace_paths`
propagates the exception — the fallback block of the source wraps its
directory creation in no inner `try`, so the caller does not always
receive a usable pair. -/
theorem c7_resolver_can_raise_counterexample :
    get_workspace_paths envDenied
      = .error "PermissionError: [Errno 13] Permission denied" := rfl

/-- C7 (amended): resolution follows the claimed order — environment
override naming an existing directory, else the existing parent of the
add-in folder, else the add-in folder — and the call returns a usable
pair whenever the fallback's directory creation succeeds (in particular
whenever the derivation itself succeeds); but a directory-creation failure
in the fallback path is not swallowed. -/
theorem c7_resolver_amended (env : FsEnv) :
    (env.makedirs (pjoin (addonPath env) "mcp_comm") = .ok () →
      ∃ w c, get_workspace_paths env = .ok (w, c))
    ∧ (env.makedirs (pjoin (triedWorkspacePath env) "mcp_comm") = .ok () →
      get_workspace_paths env
        = .ok (triedWorkspacePath env,
               pjoin (triedWorkspacePath env) "mcp_comm"))
    ∧ (∀ p, env.envVar = some p → ¬ p = "" → env.isdir p = true →
        triedWorkspacePath env = p)
    ∧ (env.envVar = none → env.isdir (pyDirname (addonPath env)) = true →
        triedWorkspacePath env = pyDirname (addonPath env))
    ∧ (env.envVar = none → env.isdir (pyDirname (addonPath env)) = false →
        triedWorkspacePath env = addonPath env) := by
  refine ⟨?_, ?_, ?_, ?_, ?_⟩
  · intro hfb
    unfold get_workspace_paths
    dsimp only
    cases hmk : env.makedirs (pjoin (triedWorkspacePath env) "mcp_comm") with
    | ok u => exact ⟨_, _, rfl⟩
    | error e =>
      rw [hfb]
      exact ⟨_, _, rfl⟩
  · intro hmk
    unfold get_workspace_paths
    dsimp only
    rw [hmk]
  · intro p hp hne hdir
    simp [triedWorkspacePath, hp, hne, hdir]
  · intro hp hdir
    simp [triedWorkspacePath, hp, hdir]
  · intro hp hdir
    simp [triedWorkspacePath, hp, hdir]

/-- An environment in which directory creation always succeeds. -/
def envGood : FsEnv :=
  { file := "/w/MCPserve/commands/MCPServerCommand.py"
    envVar := none
    isdir := fun _ => true
    makedirs := fun _ => .ok () }

/-- C7 witness: with working directory creation the resolver returns a
pair. -/
theorem c7_resolver_amended_witness :
    ∃ w c, get_workspace_paths envGood = .ok (w, c) :=
  (c7_resolver_amended envGood).1 rfl

/-- The running state with both background threads alive and slow to
exit. -/
def sRunning : LifecycleState :=
  { server_running := true
    server_thread := some { alive := true, msToExit := 60000 }
    file_monitor := some { alive := true, msToExit := 60000 } }

/-- C8 (counterexample to joining both threads): with the server thread
and the poller thread both alive, `stop_server` performs exactly one join
— of `server_thread` with timeout 2.0 s — and never joins the poller
thread (`file_monitor` is a local of `run_mcp_server`, unreachable from
`stop_server`). -/
theorem c8_joins_only_server_thread_counterexample :
    (stop_server sRunning).2 = [.join "server_thread" 2000]
    ∧ JoinEv.join "file_monitor" 2000 ∉ (stop_server sRunning).2 := by
  refine ⟨rfl, ?_⟩
  intro h
  rw [show (stop_server sRunning).2
      = [JoinEv.join "server_thread" 2000] from rfl] at h
  rcases List.mem_singleton.mp h with h
  exact absurd (JoinEv.join.inj h).1 (by decide)

/-- C8 (amended): `stop_server` is a no-op when the running flag is
already false; otherwise it clears the flag; the only join it can perform
is of the server thread with a 2-second timeout; and its total blocking
time is bounded by those 2 seconds whatever the threads do — a thread
that fails to join in time is simply abandoned. -/
theorem c8_stop_server_amended (s : LifecycleState) :
    (s.server_running = false → stop_server s = (s, []))
    ∧ (s.server_running = true → (stop_server s).1.server_running = false)
    ∧ ((stop_server s).2 = [] ∨ (stop_server s).2 = [.join "server_thread" 2000])
    ∧ shutdownCost s (stop_server s).2 ≤ 2000 := by
  obtain ⟨rb, st, fm⟩ := s
  cases rb
  · exact ⟨fun _ => rfl, fun h => by simp at h, Or.inl rfl, by simp [stop_server, shutdownCost]⟩
  · cases st with
    | none =>
      exact ⟨fun h => by simp at h, fun _ => rfl, Or.inl rfl,
        by simp [stop_server, shutdownCost]⟩
    | some t =>
      obtain ⟨al, ms⟩ := t
      cases al
      · exact ⟨fun h => by simp at h, fun _ => rfl, Or.inl rfl,
          by simp [stop_server, shutdownCost]⟩
      · refine ⟨fun h => by simp at h, fun _ => rfl, Or.inr rfl, ?_⟩
        simp [stop_server, shutdownCost, joinCost]

/-- The stopped state. -/
def sStopped : LifecycleState :=
  { server_running := false, server_thread := none, file_monitor := none }

/-- C8 witness: stopping when stopped is a no-op, and stopping the
running state blocks at most 2 seconds. -/
theorem c8_stop_server_amended_witness :
    stop_server sStopped = (sStopped, [])
    ∧ shutdownCost sRunning (stop_server sRunning).2 ≤ 2000 :=
  ⟨(c8_stop_server_amended sStopped).1 rfl,
   (c8_stop_server_amended sRunning).2.2.2⟩

/-- C9: the id extraction `file.split("_")[1].split(".")[0]` keeps only
the part of the embedded id before its first underscore or dot; for an id
containing either character the extracted id differs from the full id
(so response and tombstone are filed under the truncated id), and any two
ids sharing that first segment map to the same response and tombstone
names, hence are identified by the dedup check. -/
theorem c9_id_truncation (id : Name) :
    commandId (nm "command_" ++ id ++ nm ".json") = firstSegment id
    ∧ (∀ id2 : Name, firstSegment id2 = firstSegment id →
        responseName (commandId (nm "command_" ++ id2 ++ nm ".json"))
          = responseName (commandId (nm "command_" ++ id ++ nm ".json"))
        ∧ processedName (commandId (nm "command_" ++ id2 ++ nm ".json"))
          = processedName (commandId (nm "command_" ++ id ++ nm ".json")))
    ∧ (('_' ∈ id ∨ '.' ∈ id) →
        commandId (nm "command_" ++ id ++ nm ".json") ≠ id) := by
  refine ⟨commandId_wrapped id, ?_, ?_⟩
  · intro id2 h
    rw [commandId_wrapped, commandId_wrapped, h]
    exact ⟨rfl, rfl⟩
  · intro h
    rw [commandId_wrapped]
    exact firstSegment_ne_of_sep id h

/-- C9 witness: `ab_cd` is truncated to `ab`, and `ab.x` collides with it. -/
theorem c9_id_truncation_witness :
    commandId (nm "command_" ++ nm "ab_cd" ++ nm ".json") ≠ nm "ab_cd"
    ∧ responseName (commandId (nm "command_" ++ nm "ab.x" ++ nm ".json"))
        = responseName (commandId (nm "command_" ++ nm "ab_cd" ++ nm ".json")) :=
  ⟨(c9_id_truncation (nm "ab_cd")).2.2 (Or.inl (by decide)),
   ((c9_id_truncation (nm "ab_cd")).2.1 (nm "ab.x") (by decide)).1⟩

/-- C10: `server_thread_func` declares no `global`, so its
`server_running = False` assignments on the failure paths create a
function-local binding: for every outcome of `run_mcp_server` the module's
global store is left untouched — in particular a flag that was `True`
stays `True` after the thread body ends — while the local frame receives
the `False`; by contrast the same assignment inside `start_server`, which
does declare `global server_running`, hits the global store. -/
theorem c10_server_running_stays_true (g : Store) (outcome : RunOutcome) :
    (server_thread_func g outcome).1 = g
    ∧ (storeGet g "server_running" = some (.bool true) →
        storeGet (server_thread_func g outcome).1 "server_running"
          = some (.bool true))
    ∧ (outcome = .retFalse →
        storeGet (server_thread_func g outcome).2 "server_running"
          = some (.bool false))
    ∧ (∀ l, (startServerSetRunning g l).1
        = storeSet g "server_running" (.bool true)) := by
  have hglob : (server_thread_func g outcome).1 = g := by
    cases outcome <;>
      simp [server_thread_func, pyAssign, serverThreadFuncGlobals]
  refine ⟨hglob, fun h => by rw [hglob]; exact h, ?_, ?_⟩
  · intro h
    subst h
    simp [server_thread_func, pyAssign, serverThreadFuncGlobals, storeSet,
      storeGet]
  · intro l
    simp [startServerSetRunning, pyAssign, startServerGlobals]

/-- The global store after `start_server` set the flag. -/
def g0 : Store := [("server_running", .bool true)]

/-- C10 witness: after a failing `run_mcp_server`, the global flag is
still true while the thread's local frame holds false. -/
theorem c10_server_running_stays_true_witness :
    storeGet (server_thread_func g0 .retFalse).1 "server_running"
      = some (.bool true)
    ∧ storeGet (server_thread_func g0 .retFalse).2 "server_running"
      = some (.bool false) :=
  ⟨(c10_server_running_stays_true g0 .retFalse).2.1 rfl,
   (c10_server_running_stays_true g0 .retFalse).2.2.1 rfl⟩
